import Mathlib

/-!
Verification of `scripts/anonymize-snapshot.py`.

The script is a two-pass transformer over a parsed JSON document:
`collect_identifiers` builds consistent mappings from real identifiers to
synthetic ones, and `replace_identifiers` rebuilds the tree substituting
them.  We embed the JSON value tree, the relevant Python string/dict
primitives (including their failure modes: `TypeError` for `in` on
non-containers and unhashable keys, `AttributeError` for `.split`/`.replace`
on non-strings), and both passes, threading the `random` module as an
explicit stream of naturals.
-/

/-- Python runtime errors that the script can raise while traversing. -/
inductive PyErr where
  | typeError
  | attributeError
  deriving DecidableEq, Repr

mutual
/-- A parsed JSON document: string/number/boolean/null leaves, arrays, and
string-keyed objects in insertion order (Python `dict`). -/
inductive Value where
  | str (s : String)
  | int (n : Int)
  | bool (b : Bool)
  | null
  | arr (xs : VList)
  | obj (kvs : OList)
  deriving DecidableEq, Repr

/-- A list of JSON values (array elements). -/
inductive VList where
  | nil
  | cons (v : Value) (tl : VList)
  deriving DecidableEq, Repr

/-- Entries of a JSON object, in insertion order. -/
inductive OList where
  | nil
  | cons (k : String) (v : Value) (tl : OList)
  deriving DecidableEq, Repr
end

/-- Array elements as a standard list. -/
def VList.toL : VList → List Value
  | .nil => []
  | .cons v tl => v :: tl.toL

/-- Object entries as a standard association list. -/
def OList.toL : OList → List (String × Value)
  | .nil => []
  | .cons k v tl => (k, v) :: tl.toL

/-- Build a `VList` from a list (for writing concrete documents). -/
def VList.ofL : List Value → VList
  | [] => .nil
  | v :: tl => .cons v (VList.ofL tl)

/-- Build an `OList` from a list (for writing concrete documents). -/
def OList.ofL : List (String × Value) → OList
  | [] => .nil
  | (k, v) :: tl => .cons k v (OList.ofL tl)

/-- First value stored under key `k` of a Python dict (`d.get(k)` /
`d[k]`); Python dicts have unique keys, so first = only. -/
def olookup (k : String) : OList → Option Value
  | .nil => none
  | .cons k1 v tl => if k1 = k then some v else olookup k tl

/-- Python `k in d` for an object. -/
def hasKO (k : String) : OList → Bool
  | .nil => false
  | .cons k1 _ tl => k1 = k || hasKO k tl

/-- Python `d.get(k, dflt)` for an object. -/
def olookupD (k : String) (kvs : OList) (dflt : Value) : Value :=
  (olookup k kvs).getD dflt

/-- Python `d[k] = v`: replace the value in place if the key is present,
else append the binding at the end (insertion order). -/
def osetK (k : String) (v : Value) : OList → OList
  | .nil => .cons k v .nil
  | .cons k1 v1 tl => if k1 = k then .cons k1 v tl else .cons k1 v1 (osetK k v tl)

/-- The keys of an object, in order. -/
def okeys : OList → List String
  | .nil => []
  | .cons k _ tl => k :: okeys tl

/-- Python list membership `x in xs` (by equality). -/
def memV (x : Value) : VList → Bool
  | .nil => false
  | .cons v tl => v = x || memV x tl

/-- Association-list lookup for the mapping tables (first binding wins;
the script never rebinds an existing key with a different value). -/
def alookup {α : Type} [DecidableEq α] (k : α) : List (α × String) → Option String
  | [] => none
  | (k1, v) :: tl => if k1 = k then some v else alookup k tl

/-- Python dict assignment for the mapping tables. -/
def aset {α : Type} [DecidableEq α] (k : α) (v : String) : List (α × String) → List (α × String)
  | [] => [(k, v)]
  | (k1, v1) :: tl => if k1 = k then (k1, v) :: tl else (k1, v1) :: aset k v tl

/-- Python objects that can be dict keys: JSON scalars are hashable,
lists and dicts are not (`TypeError: unhashable type`). -/
def hashable : Value → Bool
  | .arr _ => false
  | .obj _ => false
  | _ => true

/-- Python `x in mapping` for a dict keyed by arbitrary values: raises
`TypeError` when `x` is unhashable. -/
def pyMem (x : Value) (m : List (Value × String)) : Except PyErr Bool :=
  if hashable x then .ok ((alookup x m).isSome) else .error .typeError

/-- Is `pre` a prefix of `s` (character lists)? -/
def prefB : List Char → List Char → Bool
  | [], _ => true
  | _ :: _, [] => false
  | a :: as, b :: bs => a = b && prefB as bs

/-- Is `pat` a contiguous substring of `s` (character lists)?  Backs the
Python substring test `pat in s`. -/
def infB (pat : List Char) : List Char → Bool
  | [] => prefB pat []
  | c :: tl => prefB pat (c :: tl) || infB pat tl

/-- Python `str.split(sep)` for a one-character separator: split at every
occurrence, keeping empty pieces. -/
def splitCh (sep : Char) : List Char → List (List Char)
  | [] => [[]]
  | c :: tl =>
    if c = sep then [] :: splitCh sep tl
    else
      match splitCh sep tl with
      | [] => [[c]]
      | h :: r => (c :: h) :: r

/-- `email.split("@")` on the underlying characters, as strings. -/
def splitAtSign (s : String) : List String :=
  (splitCh '@' s.data).map (fun l => ⟨l⟩)

/-- `email.split("@")[0]` (the list returned by `split` is never empty). -/
def firstPart (s : String) : String :=
  (splitAtSign s).headD ""

/-- Python `str.isdigit`: non-empty and all digit characters. -/
def pyIsdigit (s : String) : Bool :=
  !s.data.isEmpty && s.data.all Char.isDigit

/-- `student_number[::-1]`, from `reverse_student_number` in the script. -/
def reverse_student_number (s : String) : String :=
  ⟨s.data.reverse⟩

mutual
/-- Python `repr(value)` on a parsed JSON value (strings get quoted). -/
def pyRepr : Value → String
  | .str s => "\x27" ++ s ++ "\x27"
  | .int n => toString n
  | .bool b => Bool.rec "False" "True" b
  | .null => "None"
  | .arr xs => "[" ++ pyStrL xs ++ "]"
  | .obj kvs => "\x7b" ++ pyStrO kvs ++ "\x7d"

/-- Comma-joined reprs of array elements. -/
def pyStrL : VList → String
  | .nil => ""
  | .cons v .nil => pyRepr v
  | .cons v tl => pyRepr v ++ ", " ++ pyStrL tl

/-- Comma-joined `key: value` reprs of object entries. -/
def pyStrO : OList → String
  | .nil => ""
  | .cons k v .nil => "\x27" ++ k ++ "\x27: " ++ pyRepr v
  | .cons k v tl => "\x27" ++ k ++ "\x27: " ++ pyRepr v ++ ", " ++ pyStrO tl
end

/-- Python `str(value)` on a parsed JSON value: like `repr` but a
top-level string prints unquoted. -/
def pyStr : Value → String
  | .str s => s
  | .int n => toString n
  | .bool b => Bool.rec "False" "True" b
  | .null => "None"
  | .arr xs => "[" ++ pyStrL xs ++ "]"
  | .obj kvs => "\x7b" ++ pyStrO kvs ++ "\x7d"

/-- Python `needle in value` for an arbitrary value: substring test on
strings, membership on lists, key test on dicts, `TypeError` otherwise. -/
def pyContains (needle : String) : Value → Except PyErr Bool
  | .str s => .ok (infB needle.data s.data)
  | .arr xs => .ok (memV (.str needle) xs)
  | .obj kvs => .ok (hasKO needle kvs)
  | _ => .error .typeError

/-- Python `value.split("@")`: `AttributeError` on non-strings. -/
def pySplitAtSign : Value → Except PyErr (List String)
  | .str s => .ok (splitAtSign s)
  | _ => .error .attributeError

/-- Python `len(value)`: defined on strings, lists and dicts, `TypeError`
otherwise. -/
def pyLen : Value → Except PyErr Nat
  | .str s => .ok s.length
  | .arr xs => .ok xs.toL.length
  | .obj kvs => .ok kvs.toL.length
  | _ => .error .typeError

/-- One step of `str.replace(pat, sub)` with explicit fuel (one unit per
consumed character, so `s.length` fuel always suffices). -/
def replFuel (pat sub : List Char) : Nat → List Char → List Char
  | _, [] => []
  | 0, s => s
  | fuel + 1, c :: tl =>
    if pat ≠ [] ∧ prefB pat (c :: tl) then
      sub ++ replFuel pat sub fuel (List.drop (pat.length - 1) tl)
    else c :: replFuel pat sub fuel tl

/-- Python `value.replace(pat, sub)`: `AttributeError` on non-strings. -/
def pyReplaceVal (v : Value) (pat sub : String) : Except PyErr String :=
  match v with
  | .str s => .ok ⟨replFuel pat.data sub.data s.data.length s.data⟩
  | _ => .error .attributeError

/-- FIRST_NAMES from the script. -/
def FIRST_NAMES : List String :=
  ["Alice", "Bob", "Charlie", "Diana", "Emma", "Frank", "Grace", "Henry",
   "Isabella", "Jack", "Kate", "Liam", "Maya", "Noah", "Olivia", "Peter",
   "Quinn", "Rachel", "Sam", "Tara", "Uma", "Victor", "Wendy", "Xavier",
   "Yara", "Zoe", "Aaron", "Beth", "Colin", "Daisy", "Ethan", "Fiona",
   "George", "Hannah", "Ian", "Julia", "Kevin", "Luna", "Mike", "Nina",
   "Oscar", "Paula", "Quincy", "Rosa", "Steve", "Tina", "Ulysses", "Vera",
   "William", "Xena", "Yuki", "Zachary", "Amy", "Blake", "Chloe", "David",
   "Eva", "Felix", "Gina", "Hugo", "Iris", "Jake", "Kelly", "Leo",
   "Mia", "Nathan", "Opal", "Patrick", "Queenie", "Ryan", "Sophia", "Tom",
   "Una", "Vince", "Willow", "Xander", "Yasmin", "Zara", "Adam", "Bella"]

/-- LAST_NAMES from the script. -/
def LAST_NAMES : List String :=
  ["Anderson", "Brown", "Clark", "Davis", "Evans", "Foster", "Garcia", "Harris",
   "Irving", "Johnson", "King", "Lopez", "Miller", "Nelson", "O\x27Brien", "Parker",
   "Quinn", "Roberts", "Smith", "Taylor", "Underwood", "Valdez", "Williams", "Xavier",
   "Young", "Zhang", "Adams", "Baker", "Carter", "Dixon", "Edwards", "Fisher",
   "Green", "Hill", "Jackson", "Kumar", "Lee", "Martin", "Nguyen", "Owen",
   "Patel", "Rodriguez", "Scott", "Thompson", "Turner", "Walker", "White", "Wilson",
   "Chen", "Kim", "Singh", "Ali", "Moore", "Wright", "Hall", "Allen",
   "Torres", "Ramirez", "Flores", "Rivera", "Campbell", "Mitchell", "Gonzalez", "Perez",
   "Sanchez", "Bailey", "Murphy", "Cooper", "Richardson", "Cox", "Ward", "Peterson",
   "Bennett", "Watson", "Jenkins", "Perry", "Powell", "Long", "Patterson", "Hughes"]

/-- The candidate name tried at a given attempt:
`FIRST_NAMES[index % len] ++ " " ++ LAST_NAMES[(index + attempts) % len]`. -/
def tryName (index attempts : Nat) : String :=
  FIRST_NAMES.getD (index % FIRST_NAMES.length) "" ++ " " ++
    LAST_NAMES.getD ((index + attempts) % LAST_NAMES.length) ""

/-- The first of the 100 attempts whose candidate is not yet used. -/
def findAttempt (index : Nat) (used : List String) : Option Nat :=
  (List.range 100).find? (fun a => !used.contains (tryName index a))

/-- `generate_fake_name(index, used_names)`: returns the chosen name and
the updated used-names set.  On success the name is added to the set; the
numeric-suffix fallback (all 100 attempts collide) does not add it. -/
def generate_fake_name (index : Nat) (used : List String) : String × List String :=
  match findAttempt index used with
  | some a => let n := tryName index a; (n, n :: used)
  | none => (tryName index 99 ++ Nat.repr index, used)

/-- The run state: the three mapping tables, the used-names set, and the
`random` module modelled as a stream `gen` with a cursor `ctr`. -/
structure St where
  gen : Nat → Nat
  ctr : Nat
  name_mapping : List (Value × String)
  student_number_mapping : List (String × String)
  student_id_mapping : List (Value × String)
  used_names : List String

/-- Initial state of `anonymize_json`: teacher mappings pre-populated
(both the real name and the legacy placeholder map to "Dev CodePet"). -/
def initSt (gen : Nat → Nat) : St :=
  ⟨gen, 0,
   [(.str "Stewart Chan", "Dev CodePet"), (.str "Test Teacher", "Dev CodePet")],
   [], [], []⟩

/-- `random.choices('0123456789', k=k)` joined to a string: `k` digits
drawn from the stream; advances the cursor by `k`. -/
def randDigits (st : St) (k : Nat) : String × St :=
  (⟨(List.range k).map (fun i => Nat.digitChar (st.gen (st.ctr + i) % 10))⟩,
   { st with ctr := st.ctr + k })

/-- `random.randint(lo, hi)` (inclusive); advances the cursor by one. -/
def randint (st : St) (lo hi : Nat) : Nat × St :=
  (lo + st.gen st.ctr % (hi - lo + 1), { st with ctr := st.ctr + 1 })

/-- The teacher block of `collect_identifiers`: if
`obj.get("email") == "stewart.chan@gapps.yrdsb.ca"`, (re-)bind the real
teacher name to the placeholder. -/
def collectTeacher (st : St) (kvs : OList) : St :=
  if olookup "email" kvs = some (.str "stewart.chan@gapps.yrdsb.ca") then
    { st with name_mapping := aset (.str "Stewart Chan") "Dev CodePet" st.name_mapping }
  else st

/-- The shared body of the two name+email blocks of `collect_identifiers`:
given the looked-up email and name values, detect a student-domain email
with an all-digits local part, allocate a synthetic name if the real name
is new and is not the teacher, and record the reversed student number. -/
def collectPair (st : St) (email name : Value) : Except PyErr St := do
  let c ← pyContains "@gapps.yrdsb.ca" email
  if c then do
    let parts ← pySplitAtSign email
    if pyIsdigit (parts.headD "") then do
      let student_number := parts.headD ""
      let m ← pyMem name st.name_mapping
      let st1 :=
        if !m ∧ name ≠ .str "Stewart Chan" then
          let fn := generate_fake_name st.name_mapping.length st.used_names
          { st with name_mapping := aset name fn.1 st.name_mapping, used_names := fn.2 }
        else st
      if (alookup student_number st1.student_number_mapping).isSome then
        .ok st1
      else
        let snm1 := aset student_number (reverse_student_number student_number) st1.student_number_mapping
        .ok { st1 with student_number_mapping := snm1 }
    else .ok st
  else .ok st

/-- The name-less email block of `collect_identifiers` (lines 112-119):
an `email` field with a student-domain digits local part is recorded in
the student-number mapping even without a companion name. -/
def collectEmailOnly (st : St) (email : Value) : Except PyErr St := do
  let c ← pyContains "@gapps.yrdsb.ca" email
  if c then do
    let parts ← pySplitAtSign email
    if pyIsdigit (parts.headD "") then
      let student_number := parts.headD ""
      if (alookup student_number st.student_number_mapping).isSome then
        .ok st
      else
        let snm1 := aset student_number (reverse_student_number student_number) st.student_number_mapping
        .ok { st with student_number_mapping := snm1 }
    else .ok st
  else .ok st

/-- The `studentId` block of `collect_identifiers`: allocate a random
digit string of the same length for a new ID. -/
def collectStudentId (st : St) (sid : Value) : Except PyErr St := do
  let m ← pyMem sid st.student_id_mapping
  if m then .ok st
  else do
    let len ← pyLen sid
    let fake := randDigits st len
    .ok { fake.2 with student_id_mapping := aset sid fake.1 fake.2.student_id_mapping }

/-- All node-local detection rules of `collect_identifiers` at one map
node, in source order. -/
def collectNode (st : St) (kvs : OList) : Except PyErr St :=
  (Except.ok (collectTeacher st kvs) : Except PyErr St) >>= fun st1 =>
  (match olookup "name" kvs, olookup "email" kvs with
   | some name, some email => collectPair st1 email name
   | _, _ => .ok st1) >>= fun st2 =>
    (match olookup "studentEmail" kvs, olookup "studentName" kvs with
     | some email, some name => collectPair st2 email name
     | _, _ => .ok st2) >>= fun st3 =>
      (match olookup "email" kvs with
       | some email => collectEmailOnly st3 email
       | none => .ok st3) >>= fun st4 =>
        match olookup "studentId" kvs with
        | some sid => collectStudentId st4 sid
        | none => .ok st4

mutual
/-- `collect_identifiers`: run the detection rules at every map node and
recurse into every value and element. -/
def collectV (st : St) : Value → Except PyErr St
  | .obj kvs => do collectO (← collectNode st kvs) kvs
  | .arr xs => collectL st xs
  | _ => .ok st

/-- Collect over the elements of an array. -/
def collectL (st : St) : VList → Except PyErr St
  | .nil => .ok st
  | .cons v tl => do collectL (← collectV st v) tl

/-- Collect over the values of an object. -/
def collectO (st : St) : OList → Except PyErr St
  | .nil => .ok st
  | .cons _ v tl => do collectO (← collectV st v) tl
end

/-- One backfill statement of the quiz-data repair:
`if key not in quiz_data: quiz_data[key] = dflt`. -/
def qstep (key : String) (dflt : Value) (q : OList) : OList :=
  if hasKO key q then q else osetK key dflt q

/-- The quiz-data key order and defaults (lines 179-200): backfill each of
the eleven fields only if absent, in sequence; `formId` draws a random
six-digit number, `totalQuestions` is `len(quiz_data.get("questions", []))`. -/
def quizFix (st : St) (q : OList) : Except PyErr (OList × St) := do
  let p1 :=
    if hasKO "formId" q then (q, st)
    else
      let r := randint st 100000 999999
      (osetK "formId" (.str ("quiz_form_" ++ Nat.repr r.1)) q, r.2)
  let q2 := qstep "formUrl" (.str "https://forms.example.com/placeholder") p1.1
  let q3 := qstep "title" (.str "Sample Quiz") q2
  let q4 := qstep "isQuiz" (.bool true) q3
  let q5 := qstep "collectEmailAddresses" (.bool true) q4
  let q6 := qstep "allowResponseEditing" (.bool false) q5
  let q7 ←
    if hasKO "totalQuestions" q6 then pure q6
    else do
      let n ← pyLen (olookupD "questions" q6 (.arr .nil))
      pure (osetK "totalQuestions" (.int n) q6)
  let q8 := qstep "totalPoints" (.int 100) q7
  let q9 := qstep "autoGradableQuestions" (.int 0) q8
  let q10 := qstep "manualGradingRequired" (.bool true) q9
  let q11 := qstep "requireSignIn" (.bool true) q10
  .ok (q11, p1.2)

/-- Python `isinstance(value, dict)`. -/
def isObjB : Value → Bool
  | .obj _ => true
  | _ => false

/-- Is the value a Python container (`dict` or `list`)? -/
def isContainer : Value → Bool
  | .arr _ => true
  | .obj _ => true
  | _ => false

/-- Python `isinstance(value, str)`. -/
def isStrB : Value → Bool
  | .str _ => true
  | _ => false

/-- The per-entry `elif` chain of `replace_identifiers` (lines 142-209),
minus the recursive case: returns `some` with the rewritten value when one
of the non-recursive branches fires (or the final copy branch), and `none`
exactly when the "recurse into nested containers" branch applies. -/
def entryStep (st : St) (k : String) (v : Value) : Except PyErr (Option (Value × St)) :=
  if (k = "email" ∨ k = "teacherEmail") ∧ v = .str "stewart.chan@gapps.yrdsb.ca" then
    .ok (some (.str "dev.codepet@gmail.com", st))
  else if (k = "email" ∨ k = "studentEmail") ∧ infB "@gapps.yrdsb.ca".data (pyStr v).data then do
    let parts ← pySplitAtSign v
    let student_number := parts.headD ""
    if pyIsdigit student_number then
      match alookup student_number st.student_number_mapping with
      | some r => .ok (some (.str (r ++ "@gapps.yrdsb.ca"), st))
      | none => .ok (some (.str (reverse_student_number student_number ++ "@gapps.yrdsb.ca"), st))
    else .ok (some (v, st))
  else if (k = "name" ∨ k = "displayName" ∨ k = "studentName") ∧
      isStrB v ∧ (alookup v st.name_mapping).isSome then
    .ok (some (.str ((alookup v st.name_mapping).getD ""), st))
  else if k = "studentId" then do
    let m ← pyMem v st.student_id_mapping
    if m then .ok (some (.str ((alookup v st.student_id_mapping).getD ""), st))
    else .ok (some (v, st))
  else if k = "alternateLink" ∨ k = "formUrl" ∨ k = "responseUrl" ∨ k = "thumbnailUrl" ∨ k = "photoUrl" then
    let s := pyStr v
    if infB "classroom.google.com".data s.data then
      .ok (some (.str "https://classroom.example.com/placeholder", st))
    else if infB "docs.google.com/forms".data s.data then
      .ok (some (.str "https://forms.example.com/placeholder", st))
    else if infB "docs.google.com/spreadsheets".data s.data then
      .ok (some (.str "https://sheets.example.com/placeholder", st))
    else if infB "googleusercontent.com".data s.data || prefB "//lh".data s.data then
      .ok (some (.str "https://cdn.example.com/placeholder.png", st))
    else .ok (some (v, st))
  else if k = "quizData" ∧ isObjB v then
    match v with
    | .obj q => do
      let r ← quizFix st q
      .ok (some (.obj r.1, r.2))
    | _ => .ok none
  else if k = "courseGroupEmail" then do
    let s ← pyReplaceVal v "@gapps.yrdsb.ca" "@example.com"
    .ok (some (.str s, st))
  else if isContainer v then .ok none
  else .ok (some (v, st))

/-- The post-construction submission repair (lines 211-221): on maps with
both `studentEmail` and `studentName`, backfill `updatedAt` (from
`submittedAt` or a fixed default) and `attachments`, and rewrite
`grade.gradedBy` from "teacher" to "manual". -/
def fixSubmission (kvs : OList) : OList :=
  if hasKO "studentEmail" kvs ∧ hasKO "studentName" kvs then
    let kvs1 :=
      if hasKO "updatedAt" kvs then kvs
      else osetK "updatedAt" (olookupD "submittedAt" kvs (.str "2025-01-15T12:00:00.000Z")) kvs
    let kvs2 :=
      if hasKO "attachments" kvs1 then kvs1
      else osetK "attachments" (.arr .nil) kvs1
    match olookup "grade" kvs2 with
    | some (.obj g) =>
      if olookup "gradedBy" g = some (.str "teacher") then
        osetK "grade" (.obj (osetK "gradedBy" (.str "manual") g)) kvs2
      else kvs2
    | _ => kvs2
  else kvs

mutual
/-- `replace_identifiers`: rebuild the tree, substituting per the rules. -/
def replaceV (st : St) : Value → Except PyErr (Value × St)
  | .obj kvs => do
    let r ← replaceO st .nil kvs
    .ok (.obj (fixSubmission r.1), r.2)
  | .arr xs => do
    let r ← replaceL st xs
    .ok (.arr r.1, r.2)
  | v => .ok (v, st)

/-- Rebuild an array element by element. -/
def replaceL (st : St) : VList → Except PyErr (VList × St)
  | .nil => .ok (.nil, st)
  | .cons v tl => do
    let r ← replaceV st v
    let rs ← replaceL r.2 tl
    .ok (.cons r.1 rs.1, rs.2)

/-- The key loop of `replace_identifiers`: build `new_obj` by assigning
each rewritten entry in order into the accumulator dict. -/
def replaceO (st : St) (acc : OList) : OList → Except PyErr (OList × St)
  | .nil => .ok (acc, st)
  | .cons k v tl => do
    match ← entryStep st k v with
    | some r => replaceO r.2 (osetK k r.1 acc) tl
    | none => do
      let r ← replaceV st v
      replaceO r.2 (osetK k r.1 acc) tl
end

/-- `anonymize_json`: collect identifiers, then apply replacements, with
the random stream `gen` shared between the passes. -/
def anonymize_json (gen : Nat → Nat) (data : Value) : Except PyErr Value := do
  let st ← collectV (initSt gen) data
  let r ← replaceV st data
  .ok r.1

/-- Fixed random stream used for concrete runs. -/
def gen0 : Nat → Nat := fun _ => 0

/-- The eleven quiz-data backfill keys, in source order. -/
def quizKeys : List String :=
  ["formId", "formUrl", "title", "isQuiz", "collectEmailAddresses", "allowResponseEditing",
   "totalQuestions", "totalPoints", "autoGradableQuestions", "manualGradingRequired", "requireSignIn"]

/-- Append two objects entrywise. -/
def oappend : OList → OList → OList
  | .nil, r => r
  | .cons k v tl, r => .cons k v (oappend tl r)

/-- Does the string contain any digit character?  Separates the
numeric-suffix fallback names (which embed a decimal index) from the
names built purely from the two name pools. -/
def hasDigitStr (s : String) : Bool :=
  s.data.any Char.isDigit

/-- The primitive state updates the collection pass performs: re-binding
the teacher name, allocating a synthetic name, recording a reversed
student number, and recording a synthetic student ID (with fresh
randomness, so the cursor may move arbitrarily). -/
inductive CStep : St → St → Prop where
  | teacher (st : St) :
      CStep st { st with name_mapping := aset (.str "Stewart Chan") "Dev CodePet" st.name_mapping }
  | newName (st : St) (name : Value) (h1 : hashable name = true)
      (h2 : alookup name st.name_mapping = none) (h3 : name ≠ .str "Stewart Chan") :
      CStep st { st with
                 name_mapping := aset name (generate_fake_name st.name_mapping.length st.used_names).1 st.name_mapping,
                 used_names := (generate_fake_name st.name_mapping.length st.used_names).2 }
  | newNumber (st : St) (n : String) (h : alookup n st.student_number_mapping = none) :
      CStep st { st with student_number_mapping := aset n (reverse_student_number n) st.student_number_mapping }
  | newId (st : St) (sid : Value) (f : String) (c : Nat) (h1 : hashable sid = true)
      (h2 : alookup sid st.student_id_mapping = none)
      (h3 : ∃ len, pyLen sid = .ok len ∧ f.length = len ∧ f.data.all Char.isDigit = true) :
      CStep st { st with ctr := c, student_id_mapping := aset sid f st.student_id_mapping }

/-- Zero or more collection updates. -/
def Steps : St → St → Prop := Relation.ReflTransGen CStep

/-- Every entry of the Student-Number Mapping stores the character
reversal of its key. -/
def SnmInv (st : St) : Prop :=
  ∀ p ∈ st.student_number_mapping, p.2 = reverse_student_number p.1

/-- Every entry of the Student-ID Mapping is keyed by a string and stores
a same-length all-digit string. -/
def SimInv (st : St) : Prop :=
  ∀ p ∈ st.student_id_mapping,
    ∃ s, p.1 = .str s ∧ p.2.length = s.length ∧ p.2.data.all Char.isDigit = true

/-- The Name Mapping invariant: keys are unique; the used-names set holds
only digit-free names; any value outside the used-names set is the
teacher placeholder or a fallback (digit-bearing) name; and the values
inside the used-names set (other than the teacher placeholder) are
pairwise distinct. -/
def NameInv (m : List (Value × String)) (u : List String) : Prop :=
  (m.map Prod.fst).Nodup ∧
  (∀ s ∈ u, hasDigitStr s = false) ∧
  (∀ p ∈ m, p.2 ∉ u → p.2 = "Dev CodePet" ∨ hasDigitStr p.2 = true) ∧
  ((m.map Prod.snd).filter (fun s => u.contains s && (s != "Dev CodePet"))).Nodup

/-- The sub-value relation: `Subnode w v` holds when `w` occurs somewhere
inside the document `v` (including `v` itself). -/
inductive Subnode : Value → Value → Prop where
  | refl (v : Value) : Subnode v v
  | inObj {w v : Value} {k : String} {kvs : OList} :
      (k, v) ∈ kvs.toL → Subnode w v → Subnode w (.obj kvs)
  | inArr {w v : Value} {xs : VList} :
      v ∈ xs.toL → Subnode w v → Subnode w (.arr xs)

/-- The keys the rewriter may add to a map node beyond the input keys:
the eleven quiz-data backfills (only on a map that is the value of a
`quizData` key, signalled by the flag) and the two submission repairs
(only on maps carrying both `studentEmail` and `studentName`). -/
def allowedExtra (q : Bool) (kvs : OList) : List String :=
  (if q then quizKeys else []) ++
    (if hasKO "studentEmail" kvs && hasKO "studentName" kvs then ["updatedAt", "attachments"] else [])

mutual
/-- Key-and-length congruence between an input value and its rewrite:
scalars may be replaced freely (and a container may collapse to a scalar,
as the URL rules do); an output array has exactly the input's elements
rewritten pointwise; an output map has exactly the input's keys in order,
plus appended extra keys drawn from `allowedExtra`. -/
inductive KC : Bool → Value → Value → Prop where
  | scalar (q : Bool) (v w : Value) : isContainer w = false → KC q v w
  | refl (q : Bool) (v : Value) : KC q v v
  | arr (q : Bool) {xs ys : VList} : KCL xs ys → KC q (.arr xs) (.arr ys)
  | obj (q : Bool) {kvs main extra : OList} :
      KCE kvs main → (∀ k2 ∈ okeys extra, k2 ∈ allowedExtra q kvs) →
      KC q (.obj kvs) (.obj (oappend main extra))

/-- Pointwise congruence of array elements (same length). -/
inductive KCL : VList → VList → Prop where
  | nil : KCL .nil .nil
  | cons {v w : Value} {tl tl' : VList} :
      KC false v w → KCL tl tl' → KCL (.cons v tl) (.cons w tl')

/-- Entrywise congruence of object entries: identical keys in identical
order, values congruent (a `quizData`-keyed value gets the quiz flag). -/
inductive KCE : OList → OList → Prop where
  | nil : KCE .nil .nil
  | cons {k : String} {v w : Value} {tl tl' : OList} :
      KC (k == "quizData") v w → KCE tl tl' → KCE (.cons k v tl) (.cons k w tl')
end

mutual
/-- Well-formed parsed JSON: every object has pairwise-distinct keys (as
`json.load` guarantees for Python dicts). -/
def WFV : Value → Bool
  | .str _ => true
  | .int _ => true
  | .bool _ => true
  | .null => true
  | .arr xs => WFL xs
  | .obj kvs => (okeys kvs).Nodup && WFO kvs

/-- Well-formedness of array elements. -/
def WFL : VList → Bool
  | .nil => true
  | .cons v tl => WFV v && WFL tl

/-- Well-formedness of object entry values. -/
def WFO : OList → Bool
  | .nil => true
  | .cons _ v tl => WFV v && WFO tl
end

/-- The key loop of the rewriter, entry by entry: each input entry is
rewritten either by a non-recursive rule or by recursion, threading the
random cursor. -/
inductive ProcO : St → OList → OList → St → Prop where
  | nil (st : St) : ProcO st .nil .nil st
  | consS {st st1 st2 : St} {k : String} {v w : Value} {tl tl' : OList} :
      entryStep st k v = .ok (some (w, st1)) → ProcO st1 tl tl' st2 →
      ProcO st (.cons k v tl) (.cons k w tl') st2
  | consR {st st1 st2 : St} {k : String} {v w : Value} {tl tl' : OList} :
      entryStep st k v = .ok none → replaceV st v = .ok (w, st1) → ProcO st1 tl tl' st2 →
      ProcO st (.cons k v tl) (.cons k w tl') st2

/-- The keys whose values the rules inspect with string methods or use as
dict keys: a non-string value under one of these can crash a pass
(`.split`, `.replace`, `in` on an int, `len` of an int, unhashable key). -/
def inspectedKeys : List String :=
  ["email", "teacherEmail", "studentEmail", "studentName", "name", "displayName",
   "studentId", "courseGroupEmail"]

/-- The value under an inspected key is a string. -/
def strOK (k : String) (v : Value) : Bool :=
  !(inspectedKeys.contains k) || isStrB v

/-- `len(value)` is defined (string, list or dict). -/
def lenOK : Value → Bool
  | .int _ => false
  | .bool _ => false
  | .null => false
  | _ => true

/-- A `quizData` map can take the `totalQuestions` backfill: either the
field is already present or `len(quiz_data.get("questions", []))` is
defined. -/
def quizOK (k : String) (v : Value) : Bool :=
  if k = "quizData" then
    match v with
    | .obj q => hasKO "totalQuestions" q || lenOK (olookupD "questions" q (.arr .nil))
    | _ => true
  else true

mutual
/-- Well-typed documents: at every map node, inspected fields hold strings
and a `quizData` map admits the `totalQuestions` backfill. -/
def WTV : Value → Bool
  | .arr xs => WTL xs
  | .obj kvs => WTO kvs
  | _ => true

/-- Well-typedness of array elements. -/
def WTL : VList → Bool
  | .nil => true
  | .cons v tl => WTV v && WTL tl

/-- Well-typedness of the entries of a map node. -/
def WTO : OList → Bool
  | .nil => true
  | .cons k v tl => strOK k v && quizOK k v && WTV v && WTO tl
end

theorem oappend_nil_right : ∀ l : OList, oappend l .nil = l
  | .nil => rfl
  | .cons k v tl => by simp [oappend, oappend_nil_right tl]

theorem oappend_assoc : ∀ (a : OList) (b c : OList), oappend (oappend a b) c = oappend a (oappend b c)
  | .nil, _, _ => rfl
  | .cons k v tl, b, c => by simp [oappend, oappend_assoc tl b c]

theorem okeys_oappend : ∀ (a b : OList), okeys (oappend a b) = okeys a ++ okeys b
  | .nil, _ => rfl
  | .cons k v tl, b => by simp [oappend, okeys, okeys_oappend tl b]

theorem hasKO_iff_mem_okeys (k : String) : ∀ l : OList, hasKO k l = true ↔ k ∈ okeys l
  | .nil => by simp [hasKO, okeys]
  | .cons k1 v tl => by
    simp only [hasKO, okeys, List.mem_cons, Bool.or_eq_true, decide_eq_true_eq,
      hasKO_iff_mem_okeys k tl]
    constructor
    · rintro (h | h)
      · exact Or.inl h.symm
      · exact Or.inr h
    · rintro (h | h)
      · exact Or.inl h.symm
      · exact Or.inr h

theorem olookup_oappend_left {k : String} : ∀ {a : OList} (b : OList), hasKO k a = true →
    olookup k (oappend a b) = olookup k a
  | .nil, _, h => by simp [hasKO] at h
  | .cons k1 v tl, b, h => by
    simp only [hasKO, Bool.or_eq_true, decide_eq_true_eq] at h
    by_cases hk : k1 = k
    · simp [oappend, olookup, hk]
    · have h2 : hasKO k tl = true := by
        rcases h with h | h
        · exact absurd h hk
        · exact h
      simp [oappend, olookup, hk, olookup_oappend_left b h2]

theorem olookup_oappend_right {k : String} : ∀ {a : OList} (b : OList), hasKO k a = false →
    olookup k (oappend a b) = olookup k b
  | .nil, _, _ => by simp [oappend]
  | .cons k1 v tl, b, h => by
    simp only [hasKO, Bool.or_eq_false_iff, decide_eq_false_iff_not] at h
    rcases h with ⟨h1, h2⟩
    simp [oappend, olookup, h1, olookup_oappend_right b h2]

theorem olookup_none_of_hasKO_false {k : String} : ∀ {l : OList}, hasKO k l = false →
    olookup k l = none
  | .nil, _ => rfl
  | .cons k1 v tl, h => by
    simp only [hasKO, Bool.or_eq_false_iff, decide_eq_false_iff_not] at h
    rcases h with ⟨h1, h2⟩
    simp [olookup, h1, olookup_none_of_hasKO_false h2]

theorem hasKO_false_of_olookup_none {k : String} : ∀ {l : OList}, olookup k l = none →
    hasKO k l = false
  | .nil, _ => rfl
  | .cons k1 v tl, h => by
    by_cases hk : k1 = k
    · simp [olookup, hk] at h
    · simp only [olookup, hk, if_false] at h
      simp [hasKO, hk, hasKO_false_of_olookup_none h]

theorem osetK_of_hasKO_false {k : String} (v : Value) : ∀ {l : OList}, hasKO k l = false →
    osetK k v l = oappend l (.cons k v .nil)
  | .nil, _ => rfl
  | .cons k1 v1 tl, h => by
    simp only [hasKO, Bool.or_eq_false_iff, decide_eq_false_iff_not] at h
    rcases h with ⟨h1, h2⟩
    simp [osetK, h1, oappend, osetK_of_hasKO_false v h2]

theorem okeys_osetK (k : String) (v : Value) : ∀ l : OList,
    okeys (osetK k v l) = if hasKO k l then okeys l else okeys l ++ [k]
  | .nil => by simp [osetK, okeys, hasKO]
  | .cons k1 v1 tl => by
    by_cases hk : k1 = k
    · simp [osetK, okeys, hasKO, hk]
    · have hd : (decide (k1 = k)) = false := by simp [hk]
      simp only [osetK, if_neg hk, okeys, hasKO, hd, Bool.false_or, okeys_osetK k v tl]
      by_cases h2 : hasKO k tl <;> simp [h2]

theorem olookup_osetK_other {k k1 : String} (v : Value) (h : k1 ≠ k) : ∀ l : OList,
    olookup k1 (osetK k v l) = olookup k1 l
  | .nil => by
    have hne : k ≠ k1 := fun hh => h hh.symm
    simp [osetK, olookup, hne]
  | .cons k2 v2 tl => by
    have hne : k ≠ k1 := fun hh => h hh.symm
    by_cases hk : k2 = k
    · simp only [osetK, if_pos hk, olookup]
      rw [hk]
      simp [hne]
    · simp [osetK, hk, olookup, olookup_osetK_other v h tl]

theorem hasKO_osetK (k k1 : String) (v : Value) : ∀ l : OList,
    hasKO k1 (osetK k v l) = ((k = k1) || hasKO k1 l)
  | .nil => by simp [osetK, hasKO]
  | .cons k2 v2 tl => by
    by_cases hk : k2 = k
    · subst hk
      simp [osetK, hasKO]
    · simp only [osetK, if_neg hk, hasKO, hasKO_osetK k k1 v tl]
      by_cases h1 : k2 = k1 <;> by_cases h2 : k = k1 <;> simp [h1, h2]

theorem osetK_oappend_left {k : String} (v : Value) : ∀ {a : OList} (b : OList), hasKO k a = true →
    osetK k v (oappend a b) = oappend (osetK k v a) b
  | .nil, _, h => by simp [hasKO] at h
  | .cons k1 v1 tl, b, h => by
    simp only [hasKO, Bool.or_eq_true, decide_eq_true_eq] at h
    by_cases hk : k1 = k
    · simp [oappend, osetK, hk]
    · have h2 : hasKO k tl = true := by
        rcases h with h | h
        · exact absurd h hk
        · exact h
      simp [oappend, osetK, hk, osetK_oappend_left v b h2]

theorem alookup_eq_none_iff {α : Type} [DecidableEq α] {k : α} {m : List (α × String)} :
    alookup k m = none ↔ k ∉ m.map Prod.fst := by
  induction m with
  | nil => simp [alookup]
  | cons p tl ih =>
    obtain ⟨k1, v⟩ := p
    by_cases hk : k1 = k
    · simp [alookup, hk]
    · have hne : ¬k = k1 := fun hh => hk hh.symm
      simp [alookup, hk, ih, hne]

theorem aset_of_not_mem {α : Type} [DecidableEq α] {k : α} (v : String) {m : List (α × String)}
    (h : alookup k m = none) : aset k v m = m ++ [(k, v)] := by
  induction m with
  | nil => rfl
  | cons p tl ih =>
    obtain ⟨k1, v1⟩ := p
    by_cases hk : k1 = k
    · simp [alookup, hk] at h
    · simp only [alookup, if_neg hk] at h
      simp [aset, hk, ih h]

theorem alookup_aset_same {α : Type} [DecidableEq α] (k : α) (v : String) (m : List (α × String)) :
    alookup k (aset k v m) = some v := by
  induction m with
  | nil => simp [aset, alookup]
  | cons p tl ih =>
    obtain ⟨k1, v1⟩ := p
    by_cases hk : k1 = k
    · simp [aset, alookup, hk]
    · simp [aset, alookup, hk, ih]

theorem alookup_aset_other {α : Type} [DecidableEq α] {k k1 : α} (v : String)
    (h : k1 ≠ k) (m : List (α × String)) : alookup k1 (aset k v m) = alookup k1 m := by
  have hne : k ≠ k1 := fun hh => h hh.symm
  induction m with
  | nil => simp [aset, alookup, hne]
  | cons p tl ih =>
    obtain ⟨k2, v2⟩ := p
    by_cases hk : k2 = k
    · subst hk
      simp [aset, alookup, hne]
    · simp [aset, alookup, hk, ih]

theorem mem_aset {α : Type} [DecidableEq α] {k : α} {v : String} {p : α × String} :
    ∀ {m : List (α × String)}, p ∈ aset k v m → p ∈ m ∨ p = (k, v)
  | [], h => by
    simp only [aset, List.mem_singleton] at h
    exact Or.inr h
  | (k1, v1) :: tl, h => by
    by_cases hk : k1 = k
    · subst hk
      simp only [aset, if_pos rfl, ite_true, List.mem_cons] at h
      rcases h with ha | ha
      · exact Or.inr (by simp [ha])
      · exact Or.inl (List.mem_cons_of_mem _ ha)
    · simp only [aset, if_neg hk, List.mem_cons] at h
      rcases h with ha | ha
      · exact Or.inl (by simp [ha])
      · rcases mem_aset ha with h2 | h2
        · exact Or.inl (List.mem_cons_of_mem _ h2)
        · exact Or.inr h2

theorem aset_map_fst_of_mem {α : Type} [DecidableEq α] {k : α} (v : String) {m : List (α × String)}
    (h : alookup k m ≠ none) : (aset k v m).map Prod.fst = m.map Prod.fst := by
  induction m with
  | nil => simp [alookup] at h
  | cons p tl ih =>
    obtain ⟨k1, v1⟩ := p
    by_cases hk : k1 = k
    · simp [aset, hk]
    · simp only [alookup, if_neg hk] at h
      simp [aset, hk, ih h]

theorem aset_map_snd_of_mem {α : Type} [DecidableEq α] {k : α} (v : String) {m : List (α × String)}
    (h : alookup k m ≠ none) :
    ∃ l1 l2 w, m.map Prod.snd = l1 ++ w :: l2 ∧ (aset k v m).map Prod.snd = l1 ++ v :: l2 := by
  induction m with
  | nil => simp [alookup] at h
  | cons p tl ih =>
    obtain ⟨k1, v1⟩ := p
    by_cases hk : k1 = k
    · exact ⟨[], tl.map Prod.snd, v1, by simp, by simp [aset, hk]⟩
    · simp only [alookup, if_neg hk] at h
      obtain ⟨l1, l2, w, h1, h2⟩ := ih h
      exact ⟨v1 :: l1, l2, w, by simp [h1], by simp [aset, hk, h2]⟩

theorem prefB_refl : ∀ l : List Char, prefB l l = true
  | [] => rfl
  | c :: tl => by simp [prefB, prefB_refl tl]

theorem infB_of_prefB {pat s : List Char} (h : prefB pat s = true) : infB pat s = true := by
  cases s with
  | nil => simpa [infB] using h
  | cons c tl => simp [infB, h]

theorem infB_append_left {pat s : List Char} (h : infB pat s = true) :
    ∀ xs : List Char, infB pat (xs ++ s) = true
  | [] => h
  | c :: tl => by simp [infB, infB_append_left h tl]

theorem splitCh_ne_nil {sep : Char} : ∀ {l : List Char}, splitCh sep l ≠ []
  | [], h => by simp [splitCh] at h
  | c :: tl, h => by
    by_cases hc : c = sep
    · simp [splitCh, hc] at h
    · simp only [splitCh, if_neg hc] at h
      rcases he : splitCh sep tl with _ | ⟨hd, r⟩
      · rw [he] at h
        simp at h
      · rw [he] at h
        simp at h

theorem splitCh_append_noSep {sep : Char} :
    ∀ {l : List Char}, (∀ c ∈ l, c ≠ sep) → ∀ r : List Char,
      splitCh sep (l ++ sep :: r) = l :: splitCh sep r
  | [], _, r => by simp [splitCh]
  | c :: tl, h, r => by
    have hc : c ≠ sep := h c (by simp)
    have htl : ∀ c2 ∈ tl, c2 ≠ sep := fun c2 hc2 => h c2 (by simp [hc2])
    have ih := splitCh_append_noSep htl r
    simp only [List.cons_append, splitCh, if_neg hc, List.append_eq]
    rw [ih]

theorem digitChar_mod_isDigit (x : Nat) : (Nat.digitChar (x % 10)).isDigit = true := by
  have h : x % 10 < 10 := Nat.mod_lt _ (by omega)
  interval_cases h2 : x % 10 <;> rfl

theorem toDigitsCore_digits :
    ∀ (fuel n : Nat) (acc : List Char), (∀ c ∈ acc, c.isDigit = true) →
      ∀ c ∈ Nat.toDigitsCore 10 fuel n acc, c.isDigit = true
  | 0, _, _, hacc => hacc
  | fuel + 1, n, acc, hacc => by
    have hd : (Nat.digitChar (n % 10)).isDigit = true := digitChar_mod_isDigit n
    have hacc2 : ∀ c ∈ Nat.digitChar (n % 10) :: acc, c.isDigit = true := by
      intro c hc
      rcases List.mem_cons.mp hc with h | h
      · simpa [h] using hd
      · exact hacc c h
    simp only [Nat.toDigitsCore]
    by_cases hz : n / 10 = 0
    · simpa [hz] using hacc2
    · simp only [if_neg hz]
      exact toDigitsCore_digits fuel (n / 10) _ hacc2

theorem toDigitsCore_ne_nil :
    ∀ (fuel n : Nat) (acc : List Char), acc ≠ [] → Nat.toDigitsCore 10 fuel n acc ≠ []
  | 0, _, _, hacc => hacc
  | fuel + 1, n, acc, _ => by
    simp only [Nat.toDigitsCore]
    by_cases hz : n / 10 = 0
    · simp [hz]
    · simp only [if_neg hz]
      exact toDigitsCore_ne_nil fuel (n / 10) _ (by simp)

theorem natRepr_hasDigit (n : Nat) : hasDigitStr (Nat.repr n) = true := by
  have h1 : ∀ c ∈ Nat.toDigits 10 n, c.isDigit = true := by
    intro c hc
    exact toDigitsCore_digits (n + 1) n [] (by simp) c hc
  have h2 : Nat.toDigits 10 n ≠ [] := by
    unfold Nat.toDigits
    simp only [Nat.toDigitsCore]
    by_cases hz : n / 10 = 0
    · simp [hz]
    · simp only [if_neg hz]
      exact toDigitsCore_ne_nil n (n / 10) _ (by simp)
  rcases he : Nat.toDigits 10 n with _ | ⟨c, tl⟩
  · exact absurd he h2
  · have hc : c.isDigit = true := h1 c (by simp [he])
    simp [hasDigitStr, Nat.repr, List.asString, he, List.any_cons, hc]

theorem hasDigitStr_append_right {a b : String} (h : hasDigitStr b = true) :
    hasDigitStr (a ++ b) = true := by
  simp only [hasDigitStr, String.data_append, List.any_append, Bool.or_eq_true]
  exact Or.inr (by simpa [hasDigitStr] using h)

theorem randDigits_length (st : St) (k : Nat) : (randDigits st k).1.length = k := by
  simp [randDigits, String.length]

theorem randDigits_digits (st : St) (k : Nat) :
    (randDigits st k).1.data.all Char.isDigit = true := by
  simp only [randDigits, List.all_eq_true]
  intro c hc
  simp only [List.mem_map] at hc
  obtain ⟨i, _, hi⟩ := hc
  rw [← hi]
  exact digitChar_mod_isDigit _

theorem isDigit_ne_at {c : Char} (h : c.isDigit = true) : c ≠ '@' := by
  intro hc
  subst hc
  simp at h

theorem splitAtSign_digit_local {d : String} (hd : pyIsdigit d = true) :
    splitAtSign (d ++ "@gapps.yrdsb.ca") = [d, "gapps.yrdsb.ca"] := by
  have hall : ∀ c ∈ d.data, c.isDigit = true := by
    simp only [pyIsdigit, Bool.and_eq_true, List.all_eq_true] at hd
    exact fun c hc => hd.2 c hc
  have hne : ∀ c ∈ d.data, c ≠ '@' := fun c hc => isDigit_ne_at (hall c hc)
  have hdom : ("@gapps.yrdsb.ca" : String).data = '@' :: ("gapps.yrdsb.ca" : String).data := rfl
  have hsplit : splitCh '@' (d.data ++ '@' :: ("gapps.yrdsb.ca" : String).data) =
      d.data :: splitCh '@' ("gapps.yrdsb.ca" : String).data :=
    splitCh_append_noSep hne _
  have htail : splitCh '@' ("gapps.yrdsb.ca" : String).data = [("gapps.yrdsb.ca" : String).data] := by
    decide
  simp only [splitAtSign, String.data_append, hdom, hsplit, htail, List.map_cons, List.map_nil]

theorem pyIsdigit_ne_teacher {d : String} (hd : pyIsdigit d = true) :
    d ++ "@gapps.yrdsb.ca" ≠ "stewart.chan@gapps.yrdsb.ca" := by
  intro h
  have hdata : d.data ++ ("@gapps.yrdsb.ca" : String).data =
      ("stewart.chan" : String).data ++ ("@gapps.yrdsb.ca" : String).data := by
    have := congrArg String.data h
    simpa [String.data_append] using this
  have hd2 : d.data = ("stewart.chan" : String).data := List.append_cancel_right hdata
  simp only [pyIsdigit, Bool.and_eq_true, List.all_eq_true] at hd
  have hs : ('s' : Char) ∈ d.data := by
    rw [hd2]
    decide
  have := hd.2 's' hs
  simp at this

theorem findAttempt_some {index a : Nat} {used : List String}
    (h : findAttempt index used = some a) :
    used.contains (tryName index a) = false := by
  have := List.find?_some h
  simpa using this

theorem FIRST_NAMES_no_digit : FIRST_NAMES.all (fun s => !hasDigitStr s) = true := by decide

theorem LAST_NAMES_no_digit : LAST_NAMES.all (fun s => !hasDigitStr s) = true := by decide

theorem tryName_no_digit (index attempts : Nat) : hasDigitStr (tryName index attempts) = false := by
  have hf : hasDigitStr (FIRST_NAMES.getD (index % FIRST_NAMES.length) "") = false := by
    have hlen : index % FIRST_NAMES.length < FIRST_NAMES.length := Nat.mod_lt _ (by decide)
    rw [List.getD_eq_getElem _ _ hlen]
    have hmem := FIRST_NAMES.getElem_mem hlen
    have := List.all_eq_true.mp FIRST_NAMES_no_digit _ hmem
    simpa using this
  have hl : hasDigitStr (LAST_NAMES.getD ((index + attempts) % LAST_NAMES.length) "") = false := by
    have hlen : (index + attempts) % LAST_NAMES.length < LAST_NAMES.length := Nat.mod_lt _ (by decide)
    rw [List.getD_eq_getElem _ _ hlen]
    have hmem := LAST_NAMES.getElem_mem hlen
    have := List.all_eq_true.mp LAST_NAMES_no_digit _ hmem
    simpa using this
  simp only [tryName, hasDigitStr, String.data_append, List.any_append, Bool.or_eq_false_iff]
  refine ⟨⟨by simpa [hasDigitStr] using hf, by decide⟩, by simpa [hasDigitStr] using hl⟩

theorem fallback_has_digit (index : Nat) :
    hasDigitStr (tryName index 99 ++ Nat.repr index) = true :=
  hasDigitStr_append_right (natRepr_hasDigit index)

theorem Steps.rfl {st : St} : Steps st st := Relation.ReflTransGen.refl

theorem Steps.trans {a b c : St} (h1 : Steps a b) (h2 : Steps b c) : Steps a c :=
  Relation.ReflTransGen.trans h1 h2

theorem Steps.one {a b : St} (h : CStep a b) : Steps a b :=
  Relation.ReflTransGen.single h

theorem collectTeacher_steps (st : St) (kvs : OList) : Steps st (collectTeacher st kvs) := by
  unfold collectTeacher
  by_cases h : olookup "email" kvs = some (.str "stewart.chan@gapps.yrdsb.ca")
  · simp only [h, if_pos rfl, ite_true]
    exact Steps.one (CStep.teacher st)
  · simp only [if_neg h]
    exact Steps.rfl

theorem ebind_ok {α β : Type} (a : α) (f : α → Except PyErr β) :
    (Except.ok a : Except PyErr α) >>= f = f a := rfl

theorem ebind_err {α β : Type} (e : PyErr) (f : α → Except PyErr β) :
    (Except.error e : Except PyErr α) >>= f = Except.error e := rfl

theorem collectPair_steps {st : St} {email name : Value} {st' : St}
    (h : collectPair st email name = .ok st') : Steps st st' := by
  unfold collectPair at h
  rcases hc : pyContains "@gapps.yrdsb.ca" email with e | c
  · rw [hc, ebind_err] at h
    exact absurd h (by simp)
  · rw [hc, ebind_ok] at h
    by_cases hcb : c = true
    · rw [if_pos hcb] at h
      rcases hp : pySplitAtSign email with e | parts
      · rw [hp, ebind_err] at h
        exact absurd h (by simp)
      · rw [hp, ebind_ok] at h
        by_cases hdg : pyIsdigit (parts.headD "") = true
        · rw [if_pos hdg] at h
          rcases hm : pyMem name st.name_mapping with e | m
          · rw [hm, ebind_err] at h
            exact absurd h (by simp)
          · rw [hm, ebind_ok] at h
            have hhash : hashable name = true := by
              by_contra hh
              simp [pyMem, hh] at hm
            have hmval : (Except.ok ((alookup name st.name_mapping).isSome) : Except PyErr Bool) = Except.ok m := by
              rw [← hm]
              simp [pyMem, hhash]
            have hmval2 : (alookup name st.name_mapping).isSome = m := by
              simpa using hmval
            set sn := parts.headD "" with hsn
            by_cases hname : (!m) = true ∧ name ≠ Value.str "Stewart Chan"
            · rw [if_pos hname] at h
              have hlk : alookup name st.name_mapping = none := by
                rcases halk : alookup name st.name_mapping with _ | y
                · rfl
                · rw [halk] at hmval2
                  simp at hmval2
                  rcases hname with ⟨hna, _⟩
                  rw [← hmval2] at hna
                  simp at hna
              have hstep1 : Steps st
                  { st with
                    name_mapping := aset name (generate_fake_name st.name_mapping.length st.used_names).1 st.name_mapping,
                    used_names := (generate_fake_name st.name_mapping.length st.used_names).2 } :=
                Steps.one (CStep.newName st name hhash hlk hname.2)
              set st1 : St :=
                { st with
                  name_mapping := aset name (generate_fake_name st.name_mapping.length st.used_names).1 st.name_mapping,
                  used_names := (generate_fake_name st.name_mapping.length st.used_names).2 } with hst1
              by_cases hnum : (alookup sn st1.student_number_mapping).isSome = true
              · rw [if_pos hnum] at h
                have : st1 = st' := by simpa using h
                exact this ▸ hstep1
              · rw [if_neg hnum] at h
                have hlk2 : alookup sn st1.student_number_mapping = none := by
                  rcases halk : alookup sn st1.student_number_mapping with _ | y
                  · rfl
                  · rw [halk] at hnum
                    simp at hnum
                have hstep2 : CStep st1
                    { st1 with student_number_mapping := aset sn (reverse_student_number sn) st1.student_number_mapping } :=
                  CStep.newNumber st1 sn hlk2
                have : { st1 with student_number_mapping := aset sn (reverse_student_number sn) st1.student_number_mapping } = st' := by
                  simpa using h
                exact this ▸ (hstep1.trans (Steps.one hstep2))
            · rw [if_neg hname] at h
              by_cases hnum : (alookup sn st.student_number_mapping).isSome = true
              · rw [if_pos hnum] at h
                have : st = st' := by simpa using h
                exact this ▸ Steps.rfl
              · rw [if_neg hnum] at h
                have hlk2 : alookup sn st.student_number_mapping = none := by
                  rcases halk : alookup sn st.student_number_mapping with _ | y
                  · rfl
                  · rw [halk] at hnum
                    simp at hnum
                have : { st with student_number_mapping := aset sn (reverse_student_number sn) st.student_number_mapping } = st' := by
                  simpa using h
                exact this ▸ Steps.one (CStep.newNumber st sn hlk2)
        · rw [if_neg hdg] at h
          have : st = st' := by simpa using h
          exact this ▸ Steps.rfl
    · rw [if_neg hcb] at h
      have : st = st' := by simpa using h
      exact this ▸ Steps.rfl

theorem collectEmailOnly_steps {st : St} {email : Value} {st' : St}
    (h : collectEmailOnly st email = .ok st') : Steps st st' := by
  unfold collectEmailOnly at h
  rcases hc : pyContains "@gapps.yrdsb.ca" email with e | c
  · rw [hc, ebind_err] at h
    exact absurd h (by simp)
  · rw [hc, ebind_ok] at h
    by_cases hcb : c = true
    · rw [if_pos hcb] at h
      rcases hp : pySplitAtSign email with e | parts
      · rw [hp, ebind_err] at h
        exact absurd h (by simp)
      · rw [hp, ebind_ok] at h
        by_cases hdg : pyIsdigit (parts.headD "") = true
        · rw [if_pos hdg] at h
          set sn := parts.headD "" with hsn
          by_cases hnum : (alookup sn st.student_number_mapping).isSome = true
          · rw [if_pos hnum] at h
            have : st = st' := by simpa using h
            exact this ▸ Steps.rfl
          · rw [if_neg hnum] at h
            have hlk2 : alookup sn st.student_number_mapping = none := by
              rcases halk : alookup sn st.student_number_mapping with _ | y
              · rfl
              · rw [halk] at hnum
                simp at hnum
            have : { st with student_number_mapping := aset sn (reverse_student_number sn) st.student_number_mapping } = st' := by
              simpa using h
            exact this ▸ Steps.one (CStep.newNumber st sn hlk2)
        · rw [if_neg hdg] at h
          have : st = st' := by simpa using h
          exact this ▸ Steps.rfl
    · rw [if_neg hcb] at h
      have : st = st' := by simpa using h
      exact this ▸ Steps.rfl

theorem collectStudentId_steps {st : St} {sid : Value} {st' : St}
    (h : collectStudentId st sid = .ok st') : Steps st st' := by
  unfold collectStudentId at h
  rcases hm : pyMem sid st.student_id_mapping with e | m
  · rw [hm, ebind_err] at h
    exact absurd h (by simp)
  · rw [hm, ebind_ok] at h
    have hhash : hashable sid = true := by
      by_contra hh
      simp [pyMem, hh] at hm
    have hmval2 : (alookup sid st.student_id_mapping).isSome = m := by
      have : (Except.ok ((alookup sid st.student_id_mapping).isSome) : Except PyErr Bool) = Except.ok m := by
        rw [← hm]
        simp [pyMem, hhash]
      simpa using this
    by_cases hmb : m = true
    · rw [if_pos hmb] at h
      have : st = st' := by simpa using h
      exact this ▸ Steps.rfl
    · rw [if_neg hmb] at h
      rcases hl : pyLen sid with e | len
      · rw [hl, ebind_err] at h
        exact absurd h (by simp)
      · rw [hl, ebind_ok] at h
        have hlk : alookup sid st.student_id_mapping = none := by
          rcases halk : alookup sid st.student_id_mapping with _ | y
          · rfl
          · rw [halk] at hmval2
            simp at hmval2
            exact absurd hmval2 hmb
        have hstep : CStep st
            { st with ctr := st.ctr + len,
                      student_id_mapping := aset sid (randDigits st len).1 st.student_id_mapping } :=
          CStep.newId st sid (randDigits st len).1 (st.ctr + len) hhash hlk
            ⟨len, hl, randDigits_length st len, randDigits_digits st len⟩
        have : { st with ctr := st.ctr + len,
                         student_id_mapping := aset sid (randDigits st len).1 st.student_id_mapping } = st' := by
          simp only [Except.ok.injEq] at h
          rw [← h]
          rfl
        exact this ▸ Steps.one hstep

theorem collectNode_steps {st : St} {kvs : OList} {st' : St}
    (h : collectNode st kvs = .ok st') : Steps st st' := by
  unfold collectNode at h
  rw [ebind_ok] at h
  have h1 : Steps st (collectTeacher st kvs) := collectTeacher_steps st kvs
  set stA := collectTeacher st kvs with hA
  rcases hA2 : (match olookup "name" kvs, olookup "email" kvs with
    | some name, some email => collectPair stA email name
    | _, _ => .ok stA : Except PyErr St) with e | stB
  · rw [hA2, ebind_err] at h
    exact absurd h (by simp)
  · rw [hA2, ebind_ok] at h
    have h2 : Steps stA stB := by
      rcases hn : olookup "name" kvs with _ | name <;> rcases he : olookup "email" kvs with _ | email <;>
        rw [hn, he] at hA2 <;> simp only [Except.ok.injEq] at hA2
      · exact hA2 ▸ Steps.rfl
      · exact hA2 ▸ Steps.rfl
      · exact hA2 ▸ Steps.rfl
      · exact collectPair_steps hA2
    rcases hB2 : (match olookup "studentEmail" kvs, olookup "studentName" kvs with
      | some email, some name => collectPair stB email name
      | _, _ => .ok stB : Except PyErr St) with e | stC
    · rw [hB2, ebind_err] at h
      exact absurd h (by simp)
    · rw [hB2, ebind_ok] at h
      have h3 : Steps stB stC := by
        rcases hn : olookup "studentEmail" kvs with _ | email <;> rcases he : olookup "studentName" kvs with _ | name <;>
          rw [hn, he] at hB2 <;> simp only [Except.ok.injEq] at hB2
        · exact hB2 ▸ Steps.rfl
        · exact hB2 ▸ Steps.rfl
        · exact hB2 ▸ Steps.rfl
        · exact collectPair_steps hB2
      rcases hC2 : (match olookup "email" kvs with
        | some email => collectEmailOnly stC email
        | none => .ok stC : Except PyErr St) with e | stD
      · rw [hC2, ebind_err] at h
        exact absurd h (by simp)
      · rw [hC2, ebind_ok] at h
        have h4 : Steps stC stD := by
          rcases he : olookup "email" kvs with _ | email <;> rw [he] at hC2 <;>
            simp only [Except.ok.injEq] at hC2
          · exact hC2 ▸ Steps.rfl
          · exact collectEmailOnly_steps hC2
        have h5 : Steps stD st' := by
          rcases he : olookup "studentId" kvs with _ | sid <;> rw [he] at h
          · simp only [Except.ok.injEq] at h
            exact h ▸ Steps.rfl
          · exact collectStudentId_steps h
        exact ((h1.trans h2).trans h3).trans (h4.trans h5)

mutual
theorem collectV_steps : ∀ {st : St} (v : Value) {st' : St}, collectV st v = .ok st' → Steps st st'
  | st, .obj kvs, st', h => by
    unfold collectV at h
    rcases hn : collectNode st kvs with e | st1
    · rw [hn, ebind_err] at h
      exact absurd h (by simp)
    · rw [hn, ebind_ok] at h
      exact (collectNode_steps hn).trans (collectO_steps kvs h)
  | st, .arr xs, st', h => collectL_steps xs h
  | st, .str s, st', h => by
    simp only [collectV, Except.ok.injEq] at h
    exact h ▸ Steps.rfl
  | st, .int n, st', h => by
    simp only [collectV, Except.ok.injEq] at h
    exact h ▸ Steps.rfl
  | st, .bool b, st', h => by
    simp only [collectV, Except.ok.injEq] at h
    exact h ▸ Steps.rfl
  | st, .null, st', h => by
    simp only [collectV, Except.ok.injEq] at h
    exact h ▸ Steps.rfl

theorem collectL_steps : ∀ {st : St} (xs : VList) {st' : St}, collectL st xs = .ok st' → Steps st st'
  | st, .nil, st', h => by
    simp only [collectL, Except.ok.injEq] at h
    exact h ▸ Steps.rfl
  | st, .cons v tl, st', h => by
    unfold collectL at h
    rcases hv : collectV st v with e | st1
    · rw [hv, ebind_err] at h
      exact absurd h (by simp)
    · rw [hv, ebind_ok] at h
      exact (collectV_steps v hv).trans (collectL_steps tl h)

theorem collectO_steps : ∀ {st : St} (kvs : OList) {st' : St}, collectO st kvs = .ok st' → Steps st st'
  | st, .nil, st', h => by
    simp only [collectO, Except.ok.injEq] at h
    exact h ▸ Steps.rfl
  | st, .cons k v tl, st', h => by
    unfold collectO at h
    rcases hv : collectV st v with e | st1
    · rw [hv, ebind_err] at h
      exact absurd h (by simp)
    · rw [hv, ebind_ok] at h
      exact (collectV_steps v hv).trans (collectO_steps tl h)
end

theorem filter_sublist_mid (p : String → Bool) (l1 l2 : List String) (w : String) :
    List.Sublist ((l1 ++ l2).filter p) ((l1 ++ w :: l2).filter p) := by
  simp only [List.filter_append]
  refine List.Sublist.append_left ?_ _
  by_cases hw : p w = true
  · simp [List.filter_cons, hw]
  · simp [List.filter_cons, hw]

theorem nameinv_aset_DC {m : List (Value × String)} {u : List String}
    (hinv : NameInv m u) (k : Value) : NameInv (aset k "Dev CodePet" m) u := by
  obtain ⟨h1, h2, h3, h4⟩ := hinv
  rcases hlk : alookup k m with _ | w
  · rw [aset_of_not_mem _ hlk]
    refine ⟨?_, h2, ?_, ?_⟩
    · simp only [List.map_append, List.map_cons, List.map_nil]
      rw [List.nodup_append]
      refine ⟨h1, by simp, ?_⟩
      intro a ha hb
      simp only [List.mem_singleton] at hb
      subst hb
      exact (alookup_eq_none_iff.mp hlk) ha
    · intro p hp hpu
      rcases List.mem_append.mp hp with hp | hp
      · exact h3 p hp hpu
      · simp only [List.mem_singleton] at hp
        subst hp
        exact Or.inl rfl
    · simp only [List.map_append, List.map_cons, List.map_nil, List.filter_append]
      have : List.filter (fun s => u.contains s && (s != "Dev CodePet")) ["Dev CodePet"] = [] := by
        simp [List.filter_cons]
      rw [this, List.append_nil]
      exact h4
  · have hne : alookup k m ≠ none := by simp [hlk]
    refine ⟨?_, h2, ?_, ?_⟩
    · rw [aset_map_fst_of_mem _ hne]
      exact h1
    · intro p hp hpu
      rcases mem_aset hp with hp | hp
      · exact h3 p hp hpu
      · subst hp
        exact Or.inl rfl
    · obtain ⟨l1, l2, w2, hv1, hv2⟩ := aset_map_snd_of_mem "Dev CodePet" hne
      rw [hv2]
      have hsub : (l1 ++ "Dev CodePet" :: l2).filter (fun s => u.contains s && (s != "Dev CodePet")) =
          (l1 ++ l2).filter (fun s => u.contains s && (s != "Dev CodePet")) := by
        simp [List.filter_append, List.filter_cons]
      rw [hsub]
      exact List.Nodup.sublist (filter_sublist_mid _ l1 l2 w2) (hv1 ▸ h4)

theorem contains_eq_decide_mem (u : List String) (s : String) :
    u.contains s = decide (s ∈ u) := by
  simp [List.contains]

theorem nameinv_newname {m : List (Value × String)} {u : List String}
    (hinv : NameInv m u) (name : Value) (hlk : alookup name m = none) :
    NameInv (aset name (generate_fake_name m.length u).1 m) (generate_fake_name m.length u).2 := by
  obtain ⟨h1, h2, h3, h4⟩ := hinv
  have hkeys : ((aset name (generate_fake_name m.length u).1 m).map Prod.fst).Nodup := by
    rw [aset_of_not_mem _ hlk]
    simp only [List.map_append, List.map_cons, List.map_nil]
    rw [List.nodup_append]
    refine ⟨h1, by simp, ?_⟩
    intro a ha hb
    simp only [List.mem_singleton] at hb
    subst hb
    exact (alookup_eq_none_iff.mp hlk) ha
  have hvals : (aset name (generate_fake_name m.length u).1 m).map Prod.snd =
      m.map Prod.snd ++ [(generate_fake_name m.length u).1] := by
    rw [aset_of_not_mem _ hlk]
    simp
  rcases hfa : findAttempt m.length u with _ | a
  · -- fallback: numeric-suffix name, used-names set unchanged
    have hgen : generate_fake_name m.length u =
        (tryName m.length 99 ++ Nat.repr m.length, u) := by
      simp [generate_fake_name, hfa]
    set w := tryName m.length 99 ++ Nat.repr m.length with hw
    have hwd : hasDigitStr w = true := fallback_has_digit m.length
    have hwu : w ∉ u := by
      intro hmem
      rw [h2 w hmem] at hwd
      exact Bool.false_ne_true hwd
    refine ⟨hkeys, ?_, ?_, ?_⟩
    · rw [hgen]
      exact h2
    · intro p hp hpu
      rcases mem_aset hp with hp2 | hp2
      · rw [hgen] at hpu
        exact h3 p hp2 hpu
      · subst hp2
        rw [hgen]
        exact Or.inr hwd
    · rw [hvals, hgen]
      simp only [List.filter_append]
      have hwf : List.filter (fun s => u.contains s && (s != "Dev CodePet")) [w] = [] := by
        simp only [List.filter_cons, List.filter_nil]
        rw [contains_eq_decide_mem]
        simp [hwu]
      rw [hwf, List.append_nil]
      exact h4
  · -- success: fresh pool name, added to the used-names set
    have hgen : generate_fake_name m.length u = (tryName m.length a, tryName m.length a :: u) := by
      simp [generate_fake_name, hfa]
    set n := tryName m.length a with hn
    have hnu : n ∉ u := by
      have := findAttempt_some hfa
      rw [contains_eq_decide_mem] at this
      simpa using this
    have hnd : hasDigitStr n = false := tryName_no_digit m.length a
    refine ⟨hkeys, ?_, ?_, ?_⟩
    · rw [hgen]
      intro s hs
      rcases List.mem_cons.mp hs with hs | hs
      · subst hs
        exact hnd
      · exact h2 s hs
    · intro p hp hpu
      rw [hgen] at hpu
      simp only [List.mem_cons, not_or] at hpu
      rcases mem_aset hp with hp2 | hp2
      · exact h3 p hp2 hpu.2
      · subst hp2
        simp only [hgen] at hpu
        exact absurd trivial hpu.1
    · rw [hvals, hgen]
      simp only [List.filter_append]
      have hcongr : List.filter (fun s => (n :: u).contains s && (s != "Dev CodePet")) (m.map Prod.snd) =
          List.filter (fun s => u.contains s && (s != "Dev CodePet")) (m.map Prod.snd) := by
        apply List.filter_congr
        intro s hs
        rw [contains_eq_decide_mem, contains_eq_decide_mem]
        by_cases hsn : s = n
        · subst hsn
          obtain ⟨p, hpm, hps⟩ := List.mem_map.mp hs
          have hsu : p.2 ∉ u := hps ▸ hnu
          rcases h3 p hpm hsu with hdc | hdig
          · rw [hps] at hdc
            rw [hdc]
            simp
          · rw [hps] at hdig
            rw [hdig] at hnd
            exact absurd hnd.symm Bool.false_ne_true
        · simp [List.mem_cons, hsn]
      rw [hcongr]
      by_cases hdc : n = "Dev CodePet"
      · have : List.filter (fun s => (n :: u).contains s && (s != "Dev CodePet")) [n] = [] := by
          simp [List.filter_cons, hdc]
        rw [this, List.append_nil]
        exact h4
      · have : List.filter (fun s => (n :: u).contains s && (s != "Dev CodePet")) [n] = [n] := by
          simp only [List.filter_cons, List.filter_nil]
          rw [contains_eq_decide_mem]
          simp [bne_iff_ne, hdc]
        rw [this]
        rw [List.nodup_append]
        refine ⟨h4, by simp, ?_⟩
        intro s hs hs2
        simp only [List.mem_singleton] at hs2
        subst hs2
        have := List.of_mem_filter hs
        simp only [Bool.and_eq_true] at this
        rw [contains_eq_decide_mem] at this
        have hsu : n ∈ u := by simpa using this.1
        exact hnu hsu

theorem cstep_nameinv {st st' : St} (h : CStep st st')
    (hinv : NameInv st.name_mapping st.used_names) : NameInv st'.name_mapping st'.used_names := by
  cases h with
  | teacher => exact nameinv_aset_DC hinv _
  | newName name h1 h2 h3 => exact nameinv_newname hinv name h2
  | newNumber n hn => exact hinv
  | newId sid f c h1 h2 h3 => exact hinv

theorem cstep_snminv {st st' : St} (h : CStep st st') (hinv : SnmInv st) : SnmInv st' := by
  cases h with
  | teacher => exact hinv
  | newName name h1 h2 h3 => exact hinv
  | newNumber n hn =>
    intro p hp
    rcases mem_aset hp with hp2 | hp2
    · exact hinv p hp2
    · subst hp2
      rfl
  | newId sid f c h1 h2 h3 => exact hinv

theorem cstep_siminv {st st' : St} (h : CStep st st') (hinv : SimInv st) : SimInv st' := by
  cases h with
  | teacher => exact hinv
  | newName name h1 h2 h3 => exact hinv
  | newNumber n hn => exact hinv
  | newId sid f c h1 h2 h3 =>
    intro p hp
    rcases mem_aset hp with hp2 | hp2
    · exact hinv p hp2
    · subst hp2
      obtain ⟨len, hlen, hflen, hfdig⟩ := h3
      cases sid with
      | str s =>
        refine ⟨s, rfl, ?_, hfdig⟩
        simp only [pyLen, Except.ok.injEq] at hlen
        rw [hflen, hlen]
      | int n2 => simp [pyLen] at hlen
      | bool b => simp [pyLen] at hlen
      | null => simp [pyLen] at hlen
      | arr xs => simp [hashable] at h1
      | obj kvs => simp [hashable] at h1

theorem cstep_snm_mono {st st' : St} (h : CStep st st') {n r : String}
    (hl : alookup n st.student_number_mapping = some r) :
    alookup n st'.student_number_mapping = some r := by
  cases h with
  | teacher => exact hl
  | newName name h1 h2 h3 => exact hl
  | newNumber n2 hn =>
    by_cases hne : n = n2
    · subst hne
      rw [hn] at hl
      exact absurd hl (by simp)
    · simpa [alookup_aset_other _ hne] using hl
  | newId sid f c h1 h2 h3 => exact hl

theorem cstep_sim_mono {st st' : St} (h : CStep st st') {x : Value} {r : String}
    (hl : alookup x st.student_id_mapping = some r) :
    alookup x st'.student_id_mapping = some r := by
  cases h with
  | teacher => exact hl
  | newName name h1 h2 h3 => exact hl
  | newNumber n2 hn => exact hl
  | newId sid f c h1 h2 h3 =>
    by_cases hne : x = sid
    · subst hne
      rw [h2] at hl
      exact absurd hl (by simp)
    · simpa [alookup_aset_other _ hne] using hl

theorem steps_nameinv {st st' : St} (h : Steps st st')
    (hinv : NameInv st.name_mapping st.used_names) : NameInv st'.name_mapping st'.used_names := by
  induction h with
  | refl => exact hinv
  | tail h1 h2 ih => exact cstep_nameinv h2 ih

theorem steps_snminv {st st' : St} (h : Steps st st') (hinv : SnmInv st) : SnmInv st' := by
  induction h with
  | refl => exact hinv
  | tail h1 h2 ih => exact cstep_snminv h2 ih

theorem steps_siminv {st st' : St} (h : Steps st st') (hinv : SimInv st) : SimInv st' := by
  induction h with
  | refl => exact hinv
  | tail h1 h2 ih => exact cstep_siminv h2 ih

theorem steps_snm_mono {st st' : St} (h : Steps st st') {n r : String}
    (hl : alookup n st.student_number_mapping = some r) :
    alookup n st'.student_number_mapping = some r := by
  induction h with
  | refl => exact hl
  | tail h1 h2 ih => exact cstep_snm_mono h2 ih

theorem steps_sim_mono {st st' : St} (h : Steps st st') {x : Value} {r : String}
    (hl : alookup x st.student_id_mapping = some r) :
    alookup x st'.student_id_mapping = some r := by
  induction h with
  | refl => exact hl
  | tail h1 h2 ih => exact cstep_sim_mono h2 ih

theorem initSt_nameinv (gen : Nat → Nat) :
    NameInv (initSt gen).name_mapping (initSt gen).used_names := by
  refine ⟨by simp only [initSt]; decide, by simp [initSt], ?_, by simp [initSt]⟩
  intro p hp hpu
  simp only [initSt, List.mem_cons, List.mem_singleton] at hp
  rcases hp with hp | hp | hp
  · subst hp
    exact Or.inl rfl
  · subst hp
    exact Or.inl rfl
  · simp at hp

theorem initSt_snminv (gen : Nat → Nat) : SnmInv (initSt gen) := by
  intro p hp
  simp [initSt] at hp

theorem initSt_siminv (gen : Nat → Nat) : SimInv (initSt gen) := by
  intro p hp
  simp [initSt] at hp

theorem alookup_mem {α : Type} [DecidableEq α] {k : α} {v : String} :
    ∀ {m : List (α × String)}, alookup k m = some v → (k, v) ∈ m
  | [], h => by simp [alookup] at h
  | (k1, v1) :: tl, h => by
    by_cases hk : k1 = k
    · subst hk
      simp only [alookup, if_pos rfl, ite_true, Option.some.injEq] at h
      subst h
      exact List.mem_cons_self _ _
    · simp only [alookup, if_neg hk] at h
      exact List.mem_cons_of_mem _ (alookup_mem h)

theorem nameinv_count {m : List (Value × String)} {u : List String} (hinv : NameInv m u) :
    ∀ s, 2 ≤ (m.map Prod.snd).count s → s = "Dev CodePet" ∨ hasDigitStr s = true := by
  obtain ⟨h1, h2, h3, h4⟩ := hinv
  intro s hcount
  by_contra hcon
  push_neg at hcon
  obtain ⟨hdc, hdig⟩ := hcon
  have hmem : s ∈ m.map Prod.snd := by
    have : 0 < (m.map Prod.snd).count s := by omega
    exact List.count_pos_iff.mp this
  have hsu : s ∈ u := by
    obtain ⟨p, hpm, hps⟩ := List.mem_map.mp hmem
    by_contra hnu
    have hpu : p.2 ∉ u := by
      rw [hps]
      exact hnu
    rcases h3 p hpm hpu with hh | hh
    · exact hdc (hps ▸ hh)
    · rw [hps] at hh
      rw [hh] at hdig
      exact hdig rfl
  have hpred : (fun t => u.contains t && (t != "Dev CodePet")) s = true := by
    simp only [contains_eq_decide_mem]
    simp [hsu, bne_iff_ne, hdc]
  have hcf : ((m.map Prod.snd).filter (fun t => u.contains t && (t != "Dev CodePet"))).count s =
      (m.map Prod.snd).count s := List.count_filter hpred
  have hle := List.nodup_iff_count_le_one.mp h4 s
  omega

theorem entryStep_email_digits {st : St} (hsnm : SnmInv st) {k : String}
    (hk : k = "email" ∨ k = "studentEmail") {d : String} (hd : pyIsdigit d = true) :
    entryStep st k (.str (d ++ "@gapps.yrdsb.ca")) =
      .ok (some (.str (reverse_student_number d ++ "@gapps.yrdsb.ca"), st)) := by
  have hne1 : ¬((k = "email" ∨ k = "teacherEmail") ∧
      Value.str (d ++ "@gapps.yrdsb.ca") = .str "stewart.chan@gapps.yrdsb.ca") := by
    rintro ⟨_, hv⟩
    simp only [Value.str.injEq] at hv
    exact pyIsdigit_ne_teacher hd hv
  have hc2 : (k = "email" ∨ k = "studentEmail") ∧
      infB ("@gapps.yrdsb.ca" : String).data (pyStr (.str (d ++ "@gapps.yrdsb.ca"))).data = true := by
    refine ⟨hk, ?_⟩
    show infB ("@gapps.yrdsb.ca" : String).data (d ++ "@gapps.yrdsb.ca").data = true
    rw [String.data_append]
    exact infB_append_left (infB_of_prefB (prefB_refl _)) _
  unfold entryStep
  rw [if_neg hne1, if_pos hc2]
  rw [show pySplitAtSign (.str (d ++ "@gapps.yrdsb.ca")) =
      .ok [d, "gapps.yrdsb.ca"] from by simp [pySplitAtSign, splitAtSign_digit_local hd]]
  rw [ebind_ok]
  simp only [List.headD_cons]
  rw [if_pos hd]
  rcases hlk : alookup d st.student_number_mapping with _ | r
  · rfl
  · have := hsnm _ (alookup_mem hlk)
    simp only at this
    rw [this]

theorem collectEmailOnly_sets {st st' : St} {d : String}
    (h : collectEmailOnly st (.str (d ++ "@gapps.yrdsb.ca")) = .ok st')
    (hd : pyIsdigit d = true) (hsnm : SnmInv st) :
    alookup d st'.student_number_mapping = some (reverse_student_number d) := by
  unfold collectEmailOnly at h
  have hc : pyContains "@gapps.yrdsb.ca" (.str (d ++ "@gapps.yrdsb.ca")) = .ok true := by
    simp only [pyContains, Except.ok.injEq]
    rw [String.data_append]
    exact infB_append_left (infB_of_prefB (prefB_refl _)) _
  rw [hc, ebind_ok, if_pos rfl] at h
  rw [show pySplitAtSign (.str (d ++ "@gapps.yrdsb.ca")) =
      .ok [d, "gapps.yrdsb.ca"] from by simp [pySplitAtSign, splitAtSign_digit_local hd]] at h
  rw [ebind_ok] at h
  simp only [List.headD_cons] at h
  rw [if_pos hd] at h
  by_cases hnum : (alookup d st.student_number_mapping).isSome = true
  · rw [if_pos hnum] at h
    have hst : st = st' := by simpa using h
    subst hst
    rcases hlk : alookup d st.student_number_mapping with _ | r
    · rw [hlk] at hnum
      simp at hnum
    · have := hsnm _ (alookup_mem hlk)
      simp only at this
      rw [this]
  · rw [if_neg hnum] at h
    have hst : { st with student_number_mapping := aset d (reverse_student_number d) st.student_number_mapping } = st' := by
      simpa using h
    rw [← hst]
    exact alookup_aset_same d _ _

theorem collectStudentId_sets {st st' : St} {x : Value}
    (h : collectStudentId st x = .ok st') :
    (alookup x st'.student_id_mapping).isSome = true := by
  unfold collectStudentId at h
  rcases hm : pyMem x st.student_id_mapping with e | m
  · rw [hm, ebind_err] at h
    exact absurd h (by simp)
  · rw [hm, ebind_ok] at h
    have hhash : hashable x = true := by
      by_contra hh
      simp [pyMem, hh] at hm
    have hmval2 : (alookup x st.student_id_mapping).isSome = m := by
      have : (Except.ok ((alookup x st.student_id_mapping).isSome) : Except PyErr Bool) = Except.ok m := by
        rw [← hm]
        simp [pyMem, hhash]
      simpa using this
    by_cases hmb : m = true
    · rw [if_pos hmb] at h
      have hst : st = st' := by simpa using h
      subst hst
      rw [hmval2, hmb]
    · rw [if_neg hmb] at h
      rcases hl : pyLen x with e | len
      · rw [hl, ebind_err] at h
        exact absurd h (by simp)
      · rw [hl, ebind_ok] at h
        have hst : { st with ctr := st.ctr + len, student_id_mapping := aset x (randDigits st len).1 st.student_id_mapping } = st' := by
          simp only [Except.ok.injEq] at h
          rw [← h]
          rfl
        rw [← hst]
        simp only
        rw [alookup_aset_same]
        rfl

theorem collectNode_decomp {st : St} {kvs : OList} {st' : St}
    (h : collectNode st kvs = .ok st') :
    ∃ stC stD, Steps st stC ∧
      (match olookup "email" kvs with
       | some email => collectEmailOnly stC email
       | none => .ok stC) = .ok stD ∧
      (match olookup "studentId" kvs with
       | some sid => collectStudentId stD sid
       | none => .ok stD) = .ok st' := by
  unfold collectNode at h
  rw [ebind_ok] at h
  have h1 : Steps st (collectTeacher st kvs) := collectTeacher_steps st kvs
  set stA := collectTeacher st kvs with hA
  rcases hA2 : (match olookup "name" kvs, olookup "email" kvs with
    | some name, some email => collectPair stA email name
    | _, _ => .ok stA : Except PyErr St) with e | stB
  · rw [hA2, ebind_err] at h
    exact absurd h (by simp)
  · rw [hA2, ebind_ok] at h
    have h2 : Steps stA stB := by
      rcases hn : olookup "name" kvs with _ | name <;> rcases he : olookup "email" kvs with _ | email <;>
        rw [hn, he] at hA2 <;> simp only [Except.ok.injEq] at hA2
      · exact hA2 ▸ Steps.rfl
      · exact hA2 ▸ Steps.rfl
      · exact hA2 ▸ Steps.rfl
      · exact collectPair_steps hA2
    rcases hB2 : (match olookup "studentEmail" kvs, olookup "studentName" kvs with
      | some email, some name => collectPair stB email name
      | _, _ => .ok stB : Except PyErr St) with e | stC
    · rw [hB2, ebind_err] at h
      exact absurd h (by simp)
    · rw [hB2, ebind_ok] at h
      have h3 : Steps stB stC := by
        rcases hn : olookup "studentEmail" kvs with _ | email <;> rcases he : olookup "studentName" kvs with _ | name <;>
          rw [hn, he] at hB2 <;> simp only [Except.ok.injEq] at hB2
        · exact hB2 ▸ Steps.rfl
        · exact hB2 ▸ Steps.rfl
        · exact hB2 ▸ Steps.rfl
        · exact collectPair_steps hB2
      rcases hC2 : (match olookup "email" kvs with
        | some email => collectEmailOnly stC email
        | none => .ok stC : Except PyErr St) with e | stD
      · rw [hC2, ebind_err] at h
        exact absurd h (by simp)
      · rw [hC2, ebind_ok] at h
        exact ⟨stC, stD, (h1.trans h2).trans h3, hC2, h⟩

theorem collectNode_email_sets {st : St} {kvs : OList} {st' : St} {d : String}
    (h : collectNode st kvs = .ok st')
    (he : olookup "email" kvs = some (.str (d ++ "@gapps.yrdsb.ca")))
    (hd : pyIsdigit d = true) (hsnm : SnmInv st) :
    alookup d st'.student_number_mapping = some (reverse_student_number d) := by
  obtain ⟨stC, stD, hsteps, hC, hD⟩ := collectNode_decomp h
  rw [he] at hC
  have hsnmC : SnmInv stC := steps_snminv hsteps hsnm
  have hset : alookup d stD.student_number_mapping = some (reverse_student_number d) :=
    collectEmailOnly_sets hC hd hsnmC
  have hstepsD : Steps stD st' := by
    rcases hs : olookup "studentId" kvs with _ | sid <;> rw [hs] at hD
    · simp only [Except.ok.injEq] at hD
      exact hD ▸ Steps.rfl
    · exact collectStudentId_steps hD
  exact steps_snm_mono hstepsD hset

theorem collectNode_sid_sets {st : St} {kvs : OList} {st' : St} {x : Value}
    (h : collectNode st kvs = .ok st')
    (hs : olookup "studentId" kvs = some x) :
    (alookup x st'.student_id_mapping).isSome = true := by
  obtain ⟨stC, stD, hsteps, hC, hD⟩ := collectNode_decomp h
  rw [hs] at hD
  exact collectStudentId_sets hD

theorem stepsP {P : St → Prop} (hP : ∀ {a b : St}, CStep a b → P a → P b)
    {a b : St} (h : Steps a b) (hp : P a) : P b := by
  induction h with
  | refl => exact hp
  | tail h1 h2 ih => exact hP h2 ih

mutual
theorem collectV_reach {P Q : St → Prop} {C : OList → Prop}
    (hP : ∀ {a b : St}, CStep a b → P a → P b)
    (hQ : ∀ {a b : St}, CStep a b → Q a → Q b)
    (hnode : ∀ {s s2 : St} {kvs : OList}, collectNode s kvs = .ok s2 → C kvs → Q s → P s2) :
    ∀ {st st' : St} (v : Value) {kvs0 : OList},
      collectV st v = .ok st' → Subnode (.obj kvs0) v → C kvs0 → Q st → P st'
  | st, st', .obj kvs, kvs0, h, hsub, hC, hq => by
    unfold collectV at h
    rcases hn : collectNode st kvs with e | st1
    · rw [hn, ebind_err] at h
      exact absurd h (by simp)
    · rw [hn, ebind_ok] at h
      cases hsub with
      | refl =>
        have hp1 : P st1 := hnode hn hC hq
        exact stepsP hP (collectO_steps kvs h) hp1
      | inObj hmem hsub2 =>
        have hq1 : Q st1 := stepsP hQ (collectNode_steps hn) hq
        exact collectO_reach hP hQ hnode kvs h hmem hsub2 hC hq1
  | st, st', .arr xs, kvs0, h, hsub, hC, hq => by
    cases hsub with
    | inArr hmem hsub2 => exact collectL_reach hP hQ hnode xs h hmem hsub2 hC hq

theorem collectL_reach {P Q : St → Prop} {C : OList → Prop}
    (hP : ∀ {a b : St}, CStep a b → P a → P b)
    (hQ : ∀ {a b : St}, CStep a b → Q a → Q b)
    (hnode : ∀ {s s2 : St} {kvs : OList}, collectNode s kvs = .ok s2 → C kvs → Q s → P s2) :
    ∀ {st st' : St} (xs : VList) {v1 : Value} {kvs0 : OList},
      collectL st xs = .ok st' → v1 ∈ xs.toL → Subnode (.obj kvs0) v1 → C kvs0 → Q st → P st'
  | st, st', .cons v2 tl, v1, kvs0, h, hmem, hsub, hC, hq => by
    unfold collectL at h
    rcases hv : collectV st v2 with e | sa
    · rw [hv, ebind_err] at h
      exact absurd h (by simp)
    · rw [hv, ebind_ok] at h
      rcases List.mem_cons.mp hmem with hm | hm
      · subst hm
        have hp : P sa := collectV_reach hP hQ hnode v1 hv hsub hC hq
        exact stepsP hP (collectL_steps tl h) hp
      · have hq1 : Q sa := stepsP hQ (collectV_steps v2 hv) hq
        exact collectL_reach hP hQ hnode tl h hm hsub hC hq1

theorem collectO_reach {P Q : St → Prop} {C : OList → Prop}
    (hP : ∀ {a b : St}, CStep a b → P a → P b)
    (hQ : ∀ {a b : St}, CStep a b → Q a → Q b)
    (hnode : ∀ {s s2 : St} {kvs : OList}, collectNode s kvs = .ok s2 → C kvs → Q s → P s2) :
    ∀ {st st' : St} (kvs : OList) {k : String} {v1 : Value} {kvs0 : OList},
      collectO st kvs = .ok st' → (k, v1) ∈ kvs.toL → Subnode (.obj kvs0) v1 → C kvs0 → Q st → P st'
  | st, st', .cons k2 v2 tl, k, v1, kvs0, h, hmem, hsub, hC, hq => by
    unfold collectO at h
    rcases hv : collectV st v2 with e | sa
    · rw [hv, ebind_err] at h
      exact absurd h (by simp)
    · rw [hv, ebind_ok] at h
      rcases List.mem_cons.mp hmem with hm | hm
      · have hv1 : v1 = v2 := congrArg Prod.snd hm
        subst hv1
        have hp : P sa := collectV_reach hP hQ hnode v1 hv hsub hC hq
        exact stepsP hP (collectO_steps tl h) hp
      · have hq1 : Q sa := stepsP hQ (collectV_steps v2 hv) hq
        exact collectO_reach hP hQ hnode tl h hm hsub hC hq1
end

theorem hasKO_oappend (k : String) : ∀ a b : OList,
    hasKO k (oappend a b) = (hasKO k a || hasKO k b)
  | .nil, b => by simp [oappend, hasKO]
  | .cons k1 v tl, b => by
    simp only [oappend, hasKO, hasKO_oappend k tl b, Bool.or_assoc]

theorem replaceO_proc : ∀ {st : St} {acc kvs out : OList} {st' : St},
    replaceO st acc kvs = .ok (out, st') →
    (∀ k2 ∈ okeys kvs, hasKO k2 acc = false) →
    (okeys kvs).Nodup →
    ∃ tl', ProcO st kvs tl' st' ∧ out = oappend acc tl'
  | st, acc, .nil, out, st', h, hfresh, hnd => by
    simp only [replaceO, Except.ok.injEq, Prod.mk.injEq] at h
    exact ⟨.nil, h.2 ▸ ProcO.nil st, by rw [← h.1, oappend_nil_right]⟩
  | st, acc, .cons k v tl, out, st', h, hfresh, hnd => by
    unfold replaceO at h
    have hka : hasKO k acc = false := hfresh k (by simp [okeys])
    have hknd : k ∉ okeys tl := by
      simp only [okeys, List.nodup_cons] at hnd
      exact hnd.1
    have hnd2 : (okeys tl).Nodup := by
      simp only [okeys, List.nodup_cons] at hnd
      exact hnd.2
    have hfr : ∀ (w : Value), ∀ k2 ∈ okeys tl, hasKO k2 (osetK k w acc) = false := by
      intro w k2 hk2
      rw [osetK_of_hasKO_false w hka, hasKO_oappend]
      have h1 : hasKO k2 acc = false := hfresh k2 (by simp [okeys, hk2])
      have h2 : hasKO k2 (OList.cons k w .nil) = false := by
        simp only [hasKO, Bool.or_false]
        simp only [decide_eq_false_iff_not]
        intro hkk
        exact hknd (hkk ▸ hk2)
      simp [h1, h2]
    rcases he : entryStep st k v with e | r
    · rw [he, ebind_err] at h
      exact absurd h (by simp)
    · rw [he, ebind_ok] at h
      rcases r with _ | ⟨w, st1⟩
      · rcases hr : replaceV st v with e | ⟨w, st1⟩
        · rw [hr, ebind_err] at h
          exact absurd h (by simp)
        · rw [hr, ebind_ok] at h
          obtain ⟨tl', hp, hout⟩ := replaceO_proc h (hfr w) hnd2
          refine ⟨.cons k w tl', ProcO.consR he hr hp, ?_⟩
          rw [hout, osetK_of_hasKO_false w hka, oappend_assoc]
          rfl
      · obtain ⟨tl', hp, hout⟩ := replaceO_proc h (hfr w) hnd2
        refine ⟨.cons k w tl', ProcO.consS he hp, ?_⟩
        rw [hout, osetK_of_hasKO_false w hka, oappend_assoc]
        rfl

theorem condAdd_spec {q e : OList} {done : List String} (key : String) (v : Value)
    (he : okeys e = done.filter (fun k2 => !(hasKO k2 q)))
    (hkey : key ∉ done) :
    (if hasKO key (oappend q e) then oappend q e else osetK key v (oappend q e)) =
      oappend q (if hasKO key q then e else oappend e (.cons key v .nil)) ∧
    okeys (if hasKO key q then e else oappend e (.cons key v .nil)) =
      (done ++ [key]).filter (fun k2 => !(hasKO k2 q)) := by
  have hke : hasKO key e = false := by
    by_contra hc
    simp only [Bool.not_eq_false] at hc
    have hmem : key ∈ okeys e := (hasKO_iff_mem_okeys key e).mp hc
    rw [he] at hmem
    exact hkey (List.mem_of_mem_filter hmem)
  have hqe : hasKO key (oappend q e) = hasKO key q := by
    rw [hasKO_oappend, hke, Bool.or_false]
  by_cases hkq : hasKO key q = true
  · rw [hqe, if_pos hkq, if_pos hkq]
    refine ⟨rfl, ?_⟩
    rw [he, List.filter_append]
    have : List.filter (fun k2 => !(hasKO k2 q)) [key] = [] := by
      simp [List.filter_cons, hkq]
    rw [this, List.append_nil]
  · rw [hqe, if_neg hkq, if_neg hkq]
    constructor
    · have hfull : hasKO key (oappend q e) = false := by
        rw [hqe]
        simpa using hkq
      rw [osetK_of_hasKO_false v hfull, oappend_assoc]
    · rw [okeys_oappend, he, List.filter_append]
      have : List.filter (fun k2 => !(hasKO k2 q)) [key] = [key] := by
        simp only [Bool.not_eq_true] at hkq
        simp [List.filter_cons, hkq]
      rw [this]
      rfl

theorem qstep_spec {q e : OList} {done : List String} (key : String) (v : Value)
    (he : okeys e = done.filter (fun k2 => !(hasKO k2 q)))
    (hkey : key ∉ done) :
    ∃ e2, qstep key v (oappend q e) = oappend q e2 ∧
      okeys e2 = (done ++ [key]).filter (fun k2 => !(hasKO k2 q)) := by
  obtain ⟨h1, h2⟩ := condAdd_spec key v he hkey
  exact ⟨_, h1, h2⟩

theorem quizFix_spec {st : St} {q q2out : OList} {st2 : St}
    (h : quizFix st q = .ok (q2out, st2)) :
    ∃ extra, q2out = oappend q extra ∧
      okeys extra = quizKeys.filter (fun k2 => !(hasKO k2 q)) := by
  unfold quizFix at h
  simp only [] at h
  have hstep1 : ∃ e1,
      (if hasKO "formId" q then (q, st)
       else
         let r := randint st 100000 999999
         (osetK "formId" (.str ("quiz_form_" ++ Nat.repr r.1)) q, r.2)).1 = oappend q e1 ∧
      okeys e1 = (["formId"] : List String).filter (fun k2 => !(hasKO k2 q)) := by
    by_cases h1 : hasKO "formId" q = true
    · rw [if_pos h1]
      exact ⟨.nil, (oappend_nil_right q).symm, by simp [okeys, List.filter_cons, h1]⟩
    · rw [if_neg h1]
      refine ⟨.cons "formId" (.str ("quiz_form_" ++ Nat.repr (randint st 100000 999999).1)) .nil, ?_, ?_⟩
      · exact osetK_of_hasKO_false _ (by simpa using h1)
      · simp only [Bool.not_eq_true] at h1
        simp [okeys, List.filter_cons, h1]
  obtain ⟨e1, he1, hk1⟩ := hstep1
  rw [he1] at h
  obtain ⟨e2, he2, hk2⟩ := qstep_spec "formUrl" (.str "https://forms.example.com/placeholder") hk1 (by decide)
  rw [he2] at h
  obtain ⟨e3, he3, hk3⟩ := qstep_spec "title" (.str "Sample Quiz") hk2 (by decide)
  rw [he3] at h
  obtain ⟨e4, he4, hk4⟩ := qstep_spec "isQuiz" (.bool true) hk3 (by decide)
  rw [he4] at h
  obtain ⟨e5, he5, hk5⟩ := qstep_spec "collectEmailAddresses" (.bool true) hk4 (by decide)
  rw [he5] at h
  obtain ⟨e6, he6, hk6⟩ := qstep_spec "allowResponseEditing" (.bool false) hk5 (by decide)
  rw [he6] at h
  have hrest : ∀ (q7 e7 : OList) (stx : St), q7 = oappend q e7 →
      okeys e7 = ((["formId"] ++ ["formUrl"] ++ ["title"] ++ ["isQuiz"] ++ ["collectEmailAddresses"] ++
        ["allowResponseEditing"] ++ ["totalQuestions"] : List String)).filter (fun k2 => !(hasKO k2 q)) →
      (Except.ok (qstep "requireSignIn" (.bool true) (qstep "manualGradingRequired" (.bool true)
        (qstep "autoGradableQuestions" (.int 0) (qstep "totalPoints" (.int 100) q7))), stx) :
          Except PyErr (OList × St)) = .ok (q2out, st2) →
      ∃ extra, q2out = oappend q extra ∧ okeys extra = quizKeys.filter (fun k2 => !(hasKO k2 q)) := by
    intro q7 e7 stx hq7 hk7 hfin
    subst hq7
    obtain ⟨e8, he8, hk8⟩ := qstep_spec "totalPoints" (.int 100) hk7 (by decide)
    rw [he8] at hfin
    obtain ⟨e9, he9, hk9⟩ := qstep_spec "autoGradableQuestions" (.int 0) hk8 (by decide)
    rw [he9] at hfin
    obtain ⟨e10, he10, hk10⟩ := qstep_spec "manualGradingRequired" (.bool true) hk9 (by decide)
    rw [he10] at hfin
    obtain ⟨e11, he11, hk11⟩ := qstep_spec "requireSignIn" (.bool true) hk10 (by decide)
    rw [he11] at hfin
    simp only [Except.ok.injEq, Prod.mk.injEq] at hfin
    refine ⟨e11, hfin.1.symm, ?_⟩
    rw [hk11]
    rfl
  have hke : hasKO "totalQuestions" e6 = false := by
    by_contra hc
    simp only [Bool.not_eq_false] at hc
    have hmem := (hasKO_iff_mem_okeys _ e6).mp hc
    rw [hk6] at hmem
    have := List.mem_of_mem_filter hmem
    simp at this
  have hqe : hasKO "totalQuestions" (oappend q e6) = hasKO "totalQuestions" q := by
    rw [hasKO_oappend, hke, Bool.or_false]
  by_cases hcond : hasKO "totalQuestions" (oappend q e6) = true
  · rw [if_pos hcond] at h
    rw [pure_bind] at h
    have hkq : hasKO "totalQuestions" q = true := by rw [← hqe]; exact hcond
    have hk7 : okeys e6 = ((["formId"] ++ ["formUrl"] ++ ["title"] ++ ["isQuiz"] ++
        ["collectEmailAddresses"] ++ ["allowResponseEditing"] ++ ["totalQuestions"] : List String)).filter
          (fun k2 => !(hasKO k2 q)) := by
      rw [hk6]
      have hone : List.filter (fun k2 => !(hasKO k2 q)) ["totalQuestions"] = [] := by
        simp [hkq]
      conv_rhs => rw [List.filter_append]
      rw [hone, List.append_nil]
    exact hrest (oappend q e6) e6 _ rfl hk7 h
  · rw [if_neg hcond] at h
    have hkq : hasKO "totalQuestions" q = false := by rw [← hqe]; simpa using hcond
    rcases hlen : pyLen (olookupD "questions" (oappend q e6) (.arr .nil)) with e | n
    · rw [hlen, ebind_err] at h
      exact absurd h (by simp)
    · rw [hlen, ebind_ok, pure_bind] at h
      have hfull : hasKO "totalQuestions" (oappend q e6) = false := by simpa using hcond
      have hset : osetK "totalQuestions" (.int n) (oappend q e6) =
          oappend q (oappend e6 (.cons "totalQuestions" (.int n) .nil)) := by
        rw [osetK_of_hasKO_false _ hfull, oappend_assoc]
      have hk7 : okeys (oappend e6 (.cons "totalQuestions" (.int n) .nil)) =
          ((["formId"] ++ ["formUrl"] ++ ["title"] ++ ["isQuiz"] ++
        ["collectEmailAddresses"] ++ ["allowResponseEditing"] ++ ["totalQuestions"] : List String)).filter
          (fun k2 => !(hasKO k2 q)) := by
        rw [okeys_oappend, hk6]
        have hone : List.filter (fun k2 => !(hasKO k2 q)) ["totalQuestions"] = ["totalQuestions"] := by
          simp [hkq]
        conv_rhs => rw [List.filter_append]
        rw [hone]
        rfl
      rw [hset] at h
      exact hrest _ _ _ rfl hk7 h

theorem KCE_refl : ∀ kvs : OList, KCE kvs kvs
  | .nil => KCE.nil
  | .cons k v tl => KCE.cons (KC.refl _ v) (KCE_refl tl)

theorem KCE_okeys : ∀ {kvs main : OList}, KCE kvs main → okeys main = okeys kvs
  | _, _, KCE.nil => rfl
  | _, _, KCE.cons h1 h2 => by simp [okeys, KCE_okeys h2]

theorem KCL_len : ∀ {xs ys : VList}, KCL xs ys → ys.toL.length = xs.toL.length
  | _, _, KCL.nil => rfl
  | _, _, KCL.cons h1 h2 => by simp [VList.toL, KCL_len h2]

theorem entryStep_kc {st st1 : St} {k : String} {v w : Value}
    (h : entryStep st k v = .ok (some (w, st1))) : KC (k == "quizData") v w := by
  unfold entryStep at h
  by_cases c1 : (k = "email" ∨ k = "teacherEmail") ∧ v = .str "stewart.chan@gapps.yrdsb.ca"
  · rw [if_pos c1] at h
    simp only [Except.ok.injEq, Option.some.injEq, Prod.mk.injEq] at h
    rw [← h.1]
    exact KC.scalar _ _ _ rfl
  · rw [if_neg c1] at h
    by_cases c2 : (k = "email" ∨ k = "studentEmail") ∧
        infB ("@gapps.yrdsb.ca" : String).data (pyStr v).data = true
    · rw [if_pos c2] at h
      rcases hp : pySplitAtSign v with e | parts
      · rw [hp, ebind_err] at h
        exact absurd h (by simp)
      · rw [hp, ebind_ok] at h
        by_cases hdg : pyIsdigit (parts.headD "") = true
        · rw [if_pos hdg] at h
          rcases hlk : alookup (parts.headD "") st.student_number_mapping with _ | r <;>
            rw [hlk] at h <;>
            simp only [Except.ok.injEq, Option.some.injEq, Prod.mk.injEq] at h <;>
            rw [← h.1]
          · exact KC.scalar _ _ _ rfl
          · exact KC.scalar _ _ _ rfl
        · rw [if_neg hdg] at h
          simp only [Except.ok.injEq, Option.some.injEq, Prod.mk.injEq] at h
          rw [← h.1]
          exact KC.refl _ v
    · rw [if_neg c2] at h
      by_cases c3 : (k = "name" ∨ k = "displayName" ∨ k = "studentName") ∧
          isStrB v = true ∧ (alookup v st.name_mapping).isSome = true
      · rw [if_pos c3] at h
        simp only [Except.ok.injEq, Option.some.injEq, Prod.mk.injEq] at h
        rw [← h.1]
        exact KC.scalar _ _ _ rfl
      · rw [if_neg c3] at h
        by_cases c4 : k = "studentId"
        · rw [if_pos c4] at h
          rcases hm : pyMem v st.student_id_mapping with e | m
          · rw [hm, ebind_err] at h
            exact absurd h (by simp)
          · rw [hm, ebind_ok] at h
            by_cases hmb : m = true
            · rw [if_pos hmb] at h
              simp only [Except.ok.injEq, Option.some.injEq, Prod.mk.injEq] at h
              rw [← h.1]
              exact KC.scalar _ _ _ rfl
            · rw [if_neg hmb] at h
              simp only [Except.ok.injEq, Option.some.injEq, Prod.mk.injEq] at h
              rw [← h.1]
              exact KC.refl _ v
        · rw [if_neg c4] at h
          by_cases c5 : k = "alternateLink" ∨ k = "formUrl" ∨ k = "responseUrl" ∨
              k = "thumbnailUrl" ∨ k = "photoUrl"
          · rw [if_pos c5] at h
            by_cases u1 : infB ("classroom.google.com" : String).data (pyStr v).data = true
            · rw [if_pos u1] at h
              simp only [Except.ok.injEq, Option.some.injEq, Prod.mk.injEq] at h
              rw [← h.1]
              exact KC.scalar _ _ _ rfl
            · rw [if_neg u1] at h
              by_cases u2 : infB ("docs.google.com/forms" : String).data (pyStr v).data = true
              · rw [if_pos u2] at h
                simp only [Except.ok.injEq, Option.some.injEq, Prod.mk.injEq] at h
                rw [← h.1]
                exact KC.scalar _ _ _ rfl
              · rw [if_neg u2] at h
                by_cases u3 : infB ("docs.google.com/spreadsheets" : String).data (pyStr v).data = true
                · rw [if_pos u3] at h
                  simp only [Except.ok.injEq, Option.some.injEq, Prod.mk.injEq] at h
                  rw [← h.1]
                  exact KC.scalar _ _ _ rfl
                · rw [if_neg u3] at h
                  by_cases u4 : (infB ("googleusercontent.com" : String).data (pyStr v).data ||
                      prefB ("//lh" : String).data (pyStr v).data) = true
                  · rw [if_pos u4] at h
                    simp only [Except.ok.injEq, Option.some.injEq, Prod.mk.injEq] at h
                    rw [← h.1]
                    exact KC.scalar _ _ _ rfl
                  · rw [if_neg u4] at h
                    simp only [Except.ok.injEq, Option.some.injEq, Prod.mk.injEq] at h
                    rw [← h.1]
                    exact KC.refl _ v
          · rw [if_neg c5] at h
            by_cases c6 : k = "quizData" ∧ isObjB v = true
            · rw [if_pos c6] at h
              obtain ⟨hk6, hobj⟩ := c6
              subst hk6
              cases v with
              | obj q =>
                replace h : (do
                    let r ← quizFix st q
                    (.ok (some (.obj r.1, r.2)) : Except PyErr (Option (Value × St)))) =
                      .ok (some (w, st1)) := h
                rcases hq : quizFix st q with e | r
                · rw [hq] at h
                  simp only [ebind_err] at h
                  exact absurd h (by simp)
                · rw [hq] at h
                  simp only [ebind_ok, Except.ok.injEq, Option.some.injEq, Prod.mk.injEq] at h
                  obtain ⟨q2, st2⟩ := r
                  obtain ⟨extra, hq2, hkeys⟩ := quizFix_spec hq
                  rw [← h.1, hq2]
                  simp only [beq_self_eq_true]
                  refine KC.obj true (KCE_refl q) ?_
                  intro k2 hk2
                  rw [hkeys] at hk2
                  have hmem := List.mem_of_mem_filter hk2
                  unfold allowedExtra
                  simp only [if_pos rfl, ite_true]
                  exact List.mem_append_left _ hmem
              | str s => simp [isObjB] at hobj
              | int n => simp [isObjB] at hobj
              | bool b => simp [isObjB] at hobj
              | null => simp [isObjB] at hobj
              | arr xs => simp [isObjB] at hobj
            · rw [if_neg c6] at h
              by_cases c7 : k = "courseGroupEmail"
              · rw [if_pos c7] at h
                cases v with
                | str s =>
                  simp only [pyReplaceVal, ebind_ok, Except.ok.injEq, Option.some.injEq,
                    Prod.mk.injEq] at h
                  rw [← h.1]
                  exact KC.scalar _ _ _ rfl
                | int n =>
                  simp only [pyReplaceVal, ebind_err] at h
                  exact absurd h (by simp)
                | bool b =>
                  simp only [pyReplaceVal, ebind_err] at h
                  exact absurd h (by simp)
                | null =>
                  simp only [pyReplaceVal, ebind_err] at h
                  exact absurd h (by simp)
                | arr xs =>
                  simp only [pyReplaceVal, ebind_err] at h
                  exact absurd h (by simp)
                | obj q =>
                  simp only [pyReplaceVal, ebind_err] at h
                  exact absurd h (by simp)
              · rw [if_neg c7] at h
                by_cases c8 : isContainer v = true
                · rw [if_pos c8] at h
                  exact absurd h (by simp)
                · rw [if_neg c8] at h
                  simp only [Except.ok.injEq, Option.some.injEq, Prod.mk.injEq] at h
                  rw [← h.1]
                  exact KC.refl _ v

theorem hasKO_true_of_olookup_some {k : String} {w : Value} {l : OList}
    (h : olookup k l = some w) : hasKO k l = true := by
  by_cases hh : hasKO k l = true
  · exact hh
  · rw [olookup_none_of_hasKO_false (by simpa using hh)] at h
    cases h

theorem allowedExtra_false_sub {kvs : OList} {k2 : String}
    (hm : k2 ∈ allowedExtra false kvs) : k2 = "updatedAt" ∨ k2 = "attachments" := by
  by_cases hc : (hasKO "studentEmail" kvs && hasKO "studentName" kvs) = true
  · simp only [allowedExtra, if_neg Bool.false_ne_true, if_pos hc, List.nil_append,
      List.mem_cons, List.not_mem_nil, or_false] at hm
    exact hm
  · simp [allowedExtra, hc] at hm

theorem KCE_olookup (k : String) : ∀ {kvs tl2 : OList}, KCE kvs tl2 →
    ∀ {w0 : Value}, olookup k tl2 = some w0 →
    ∃ v0, olookup k kvs = some v0 ∧ KC (k == "quizData") v0 w0
  | _, _, KCE.nil, _, h => by simp [olookup] at h
  | _, _, @KCE.cons k1 v w tl tl2 hkc htl, w0, h => by
    by_cases hk : k1 = k
    · subst hk
      simp only [olookup, eq_self_iff_true, ite_true, Option.some.injEq] at h
      exact ⟨v, by simp [olookup], h ▸ hkc⟩
    · simp only [olookup, if_neg hk] at h
      obtain ⟨v0, h1, h2⟩ := KCE_olookup k htl h
      exact ⟨v0, by simp [olookup, hk, h1], h2⟩

theorem KCE_osetK {k : String} {w2 : Value} : ∀ {kvs tl2 : OList}, KCE kvs tl2 →
    hasKO k tl2 = true →
    (∀ v0 w0, olookup k kvs = some v0 → olookup k tl2 = some w0 →
      KC (k == "quizData") v0 w2) →
    KCE kvs (osetK k w2 tl2)
  | _, _, KCE.nil, hk, _ => by simp [hasKO] at hk
  | _, _, @KCE.cons k1 v w tl tl2 hkc htl, hk, hrepl => by
    by_cases hk1 : k1 = k
    · subst hk1
      simp only [osetK, if_pos rfl]
      exact KCE.cons (hrepl v w (by simp [olookup]) (by simp [olookup])) htl
    · simp only [osetK, if_neg hk1]
      refine KCE.cons hkc (KCE_osetK htl ?_ ?_)
      · simpa [hasKO, hk1] using hk
      · intro v0 w0 h1 h2
        exact hrepl v0 w0 (by simp [olookup, hk1, h1]) (by simp [olookup, hk1, h2])

theorem KC_obj_oset {v0 : Value} {g : OList} {k2 : String} {wnew : Value}
    (h : KC false v0 (.obj g)) (hlk : hasKO k2 g = true)
    (hw : isContainer wnew = false)
    (hu : k2 ≠ "updatedAt") (ha : k2 ≠ "attachments") :
    KC false v0 (.obj (osetK k2 wnew g)) := by
  cases h with
  | @scalar _ _ _ hc => simp [isContainer] at hc
  | @refl _ _ =>
    have hkce : KCE g (osetK k2 wnew g) :=
      KCE_osetK (KCE_refl g) hlk (fun v1 w1 _ _ => KC.scalar _ _ _ hw)
    have h0 := @KC.obj false g (osetK k2 wnew g) .nil hkce (by simp [okeys])
    rwa [oappend_nil_right] at h0
  | @obj _ kvs main extra hkce hex =>
    have hge : hasKO k2 extra = false := by
      by_cases hh : hasKO k2 extra = true
      · exfalso
        have hm := (hasKO_iff_mem_okeys k2 extra).mp hh
        rcases allowedExtra_false_sub (hex k2 hm) with h2 | h2
        · exact hu h2
        · exact ha h2
      · simpa using hh
    have hgm : hasKO k2 main = true := by
      rw [hasKO_oappend, hge, Bool.or_false] at hlk
      exact hlk
    rw [osetK_oappend_left _ extra hgm]
    exact KC.obj false (KCE_osetK hkce hgm (fun v1 w1 _ _ => KC.scalar _ _ _ hw)) hex

theorem gradeFix_kc {kvs tl2 ex out : OList} (hkce : KCE kvs tl2)
    (hex : ∀ k2 ∈ okeys ex, k2 ∈ allowedExtra false kvs)
    (hout : out = oappend tl2 ex ∨
      ∃ g, olookup "grade" (oappend tl2 ex) = some (.obj g) ∧
        olookup "gradedBy" g = some (.str "teacher") ∧
        out = osetK "grade" (.obj (osetK "gradedBy" (.str "manual") g)) (oappend tl2 ex)) :
    KC false (.obj kvs) (.obj out) := by
  rcases hout with rfl | ⟨g, hg, hgb, rfl⟩
  · exact KC.obj false hkce hex
  · by_cases hgt : hasKO "grade" tl2 = true
    swap
    · exfalso
      rw [olookup_oappend_right ex (by simpa using hgt)] at hg
      have hke := hasKO_true_of_olookup_some hg
      have hm := (hasKO_iff_mem_okeys "grade" ex).mp hke
      rcases allowedExtra_false_sub (hex "grade" hm) with h2 | h2 <;> simp at h2
    · rw [osetK_oappend_left _ ex hgt]
      have hgl : olookup "grade" tl2 = some (.obj g) := by
        rw [olookup_oappend_left ex hgt] at hg
        exact hg
      have hgbk : hasKO "gradedBy" g = true := hasKO_true_of_olookup_some hgb
      have hkce2 : KCE kvs (osetK "grade" (.obj (osetK "gradedBy" (.str "manual") g)) tl2) := by
        refine KCE_osetK hkce hgt ?_
        intro v0 w0 h1 _
        obtain ⟨v1, hv1, hkc1⟩ := KCE_olookup "grade" hkce hgl
        rw [h1, Option.some.injEq] at hv1
        have hq : ("grade" == "quizData") = false := by decide
        rw [hq] at hkc1 ⊢
        rw [← hv1] at hkc1
        exact KC_obj_oset hkc1 hgbk rfl (by decide) (by decide)
      exact KC.obj false hkce2 hex

theorem fixSubmission_kc {kvs tl2 : OList} (hkce : KCE kvs tl2) :
    KC false (.obj kvs) (.obj (fixSubmission tl2)) := by
  unfold fixSubmission
  by_cases hsub : hasKO "studentEmail" tl2 = true ∧ hasKO "studentName" tl2 = true
  swap
  · rw [if_neg hsub]
    have h0 := @KC.obj false kvs tl2 .nil hkce (by simp [okeys])
    rwa [oappend_nil_right] at h0
  · rw [if_pos hsub]
    simp only []
    have hse : hasKO "studentEmail" kvs = true := by
      have h1 := (hasKO_iff_mem_okeys "studentEmail" tl2).mp hsub.1
      rw [KCE_okeys hkce] at h1
      exact (hasKO_iff_mem_okeys "studentEmail" kvs).mpr h1
    have hsn : hasKO "studentName" kvs = true := by
      have h1 := (hasKO_iff_mem_okeys "studentName" tl2).mp hsub.2
      rw [KCE_okeys hkce] at h1
      exact (hasKO_iff_mem_okeys "studentName" kvs).mpr h1
    have hstep1 : ∃ ex1 : OList,
        (if hasKO "updatedAt" tl2 then tl2
         else osetK "updatedAt" (olookupD "submittedAt" tl2 (.str "2025-01-15T12:00:00.000Z")) tl2)
          = oappend tl2 ex1 ∧ ∀ k2 ∈ okeys ex1, k2 = "updatedAt" ∨ k2 = "attachments" := by
      by_cases h1 : hasKO "updatedAt" tl2 = true
      · rw [if_pos h1]
        exact ⟨.nil, (oappend_nil_right tl2).symm, by simp [okeys]⟩
      · rw [if_neg h1]
        exact ⟨.cons "updatedAt" (olookupD "submittedAt" tl2 (.str "2025-01-15T12:00:00.000Z")) .nil,
          osetK_of_hasKO_false _ (by simpa using h1), by simp [okeys]⟩
    obtain ⟨ex1, he1, hx1⟩ := hstep1
    rw [he1]
    have hstep2 : ∃ ex2 : OList,
        (if hasKO "attachments" (oappend tl2 ex1) then oappend tl2 ex1
         else osetK "attachments" (.arr .nil) (oappend tl2 ex1)) = oappend tl2 ex2 ∧
        ∀ k2 ∈ okeys ex2, k2 = "updatedAt" ∨ k2 = "attachments" := by
      by_cases h2 : hasKO "attachments" (oappend tl2 ex1) = true
      · rw [if_pos h2]
        exact ⟨ex1, rfl, hx1⟩
      · rw [if_neg h2]
        refine ⟨oappend ex1 (.cons "attachments" (.arr .nil) .nil), ?_, ?_⟩
        · rw [osetK_of_hasKO_false _ (by simpa using h2), oappend_assoc]
        · intro k2 hm
          rw [okeys_oappend] at hm
          rcases List.mem_append.mp hm with hm | hm
          · exact hx1 k2 hm
          · simp only [okeys, List.mem_cons, List.not_mem_nil, or_false] at hm
            exact Or.inr hm
    obtain ⟨ex2, he2, hx2⟩ := hstep2
    rw [he2]
    have hex : ∀ k2 ∈ okeys ex2, k2 ∈ allowedExtra false kvs := by
      intro k2 hm
      have h3 := hx2 k2 hm
      simp only [allowedExtra, if_neg Bool.false_ne_true, hse, hsn, Bool.and_self, if_pos,
        List.nil_append, List.mem_cons, List.not_mem_nil, or_false]
      exact h3
    split
    · rename_i g hg
      split
      · rename_i hgb
        exact gradeFix_kc hkce hex (Or.inr ⟨g, hg, hgb, rfl⟩)
      · exact gradeFix_kc hkce hex (Or.inl rfl)
    · exact gradeFix_kc hkce hex (Or.inl rfl)

mutual
/-- Each rewritten value is key-and-length congruent to its input
(non-quiz flag at the top: `replace_identifiers` is entered on the root
and on values whose key did not match a scalar rule). -/
theorem replaceV_kc : ∀ (v : Value) {st st1 : St} {w : Value},
    replaceV st v = .ok (w, st1) → WFV v = true → KC false v w
  | .str s, st, st1, w, h, _ => by
    simp only [replaceV, Except.ok.injEq, Prod.mk.injEq] at h
    rw [← h.1]
    exact KC.refl _ _
  | .int n, st, st1, w, h, _ => by
    simp only [replaceV, Except.ok.injEq, Prod.mk.injEq] at h
    rw [← h.1]
    exact KC.refl _ _
  | .bool b, st, st1, w, h, _ => by
    simp only [replaceV, Except.ok.injEq, Prod.mk.injEq] at h
    rw [← h.1]
    exact KC.refl _ _
  | .null, st, st1, w, h, _ => by
    simp only [replaceV, Except.ok.injEq, Prod.mk.injEq] at h
    rw [← h.1]
    exact KC.refl _ _
  | .arr xs, st, st1, w, h, hwf => by
    rw [replaceV] at h
    rcases hr : replaceL st xs with e | r
    · rw [hr, ebind_err] at h
      cases h
    · rw [hr, ebind_ok] at h
      simp only [Except.ok.injEq, Prod.mk.injEq] at h
      rw [← h.1]
      exact KC.arr _ (replaceL_kcl xs hr (by simpa [WFV] using hwf))
  | .obj kvs, st, st1, w, h, hwf => by
    rw [replaceV] at h
    rcases hr : replaceO st .nil kvs with e | r
    · rw [hr, ebind_err] at h
      cases h
    · rw [hr, ebind_ok] at h
      simp only [Except.ok.injEq, Prod.mk.injEq] at h
      simp only [WFV, Bool.and_eq_true] at hwf
      obtain ⟨tl2, hproc, hout⟩ := replaceO_proc hr (fun k2 _ => rfl) (by simpa using hwf.1)
      simp only [oappend] at hout
      rw [← h.1, hout]
      exact fixSubmission_kc (procO_kce kvs hproc hwf.2)

/-- Each rewritten array is elementwise congruent to its input. -/
theorem replaceL_kcl : ∀ (xs : VList) {st st1 : St} {ys : VList},
    replaceL st xs = .ok (ys, st1) → WFL xs = true → KCL xs ys
  | .nil, st, st1, ys, h, _ => by
    simp only [replaceL, Except.ok.injEq, Prod.mk.injEq] at h
    rw [← h.1]
    exact KCL.nil
  | .cons v tl, st, st1, ys, h, hwf => by
    rw [replaceL] at h
    simp only [WFL, Bool.and_eq_true] at hwf
    rcases h1 : replaceV st v with e | r
    · rw [h1, ebind_err] at h
      cases h
    · rw [h1, ebind_ok] at h
      rcases h2 : replaceL r.2 tl with e | r2
      · rw [h2, ebind_err] at h
        cases h
      · rw [h2, ebind_ok] at h
        simp only [Except.ok.injEq, Prod.mk.injEq] at h
        rw [← h.1]
        refine KCL.cons ?_ (replaceL_kcl tl h2 hwf.2)
        have h1x : replaceV st v = .ok (r.1, r.2) := by rw [h1]
        exact replaceV_kc v h1x hwf.1

/-- The entry loop yields an entrywise congruent object. -/
theorem procO_kce : ∀ (kvs : OList) {st st2 : St} {out : OList},
    ProcO st kvs out st2 → WFO kvs = true → KCE kvs out
  | .nil, st, st2, out, h, _ => by
    cases h
    exact KCE.nil
  | .cons k v tl, st, st2, out, h, hwf => by
    simp only [WFO, Bool.and_eq_true] at hwf
    cases h with
    | consS he hp => exact KCE.cons (entryStep_kc he) (procO_kce tl hp hwf.2)
    | consR he hrv hp =>
      refine KCE.cons ?_ (procO_kce tl hp hwf.2)
      by_cases hq : k = "quizData"
      · subst hq
        cases v with
        | obj q =>
          exfalso
          rw [entryStep] at he
          rw [if_neg (fun hc => absurd hc.1 (by decide))] at he
          rw [if_neg (fun hc => absurd hc.1 (by decide))] at he
          rw [if_neg (fun hc => absurd hc.1 (by decide))] at he
          rw [if_neg (by decide)] at he
          rw [if_neg (by decide)] at he
          rw [if_pos ⟨rfl, rfl⟩] at he
          replace he : (do
              let r ← quizFix st q
              Except.ok (some (Value.obj r.1, r.2))) = Except.ok none := he
          rcases hq2 : quizFix st q with e | r
          · rw [hq2, ebind_err] at he
            cases he
          · rw [hq2, ebind_ok] at he
            simp at he
        | arr xs =>
          rw [replaceV] at hrv
          rcases hr : replaceL st xs with e | r
          · rw [hr, ebind_err] at hrv
            cases hrv
          · rw [hr, ebind_ok] at hrv
            simp only [Except.ok.injEq, Prod.mk.injEq] at hrv
            rw [← hrv.1]
            exact KC.arr _ (replaceL_kcl xs hr (by simpa [WFV] using hwf.1))
        | str s =>
          simp only [replaceV, Except.ok.injEq, Prod.mk.injEq] at hrv
          rw [← hrv.1]
          exact KC.refl _ _
        | int n =>
          simp only [replaceV, Except.ok.injEq, Prod.mk.injEq] at hrv
          rw [← hrv.1]
          exact KC.refl _ _
        | bool b =>
          simp only [replaceV, Except.ok.injEq, Prod.mk.injEq] at hrv
          rw [← hrv.1]
          exact KC.refl _ _
        | null =>
          simp only [replaceV, Except.ok.injEq, Prod.mk.injEq] at hrv
          rw [← hrv.1]
          exact KC.refl _ _
      · have hqf : (k == "quizData") = false := by simpa using hq
        rw [hqf]
        exact replaceV_kc v hrv hwf.1
end

theorem pyLen_of_lenOK {v : Value} (h : lenOK v = true) : ∃ n, pyLen v = .ok n := by
  cases v <;> simp [lenOK] at h <;> exact ⟨_, rfl⟩

theorem WTO_lookup : ∀ {kvs : OList}, WTO kvs = true → ∀ {k : String} {v : Value},
    olookup k kvs = some v → strOK k v = true ∧ quizOK k v = true ∧ WTV v = true
  | .nil, _, k, v, hl => by simp [olookup] at hl
  | .cons k1 v1 tl, hw, k, v, hl => by
    simp only [WTO, Bool.and_eq_true] at hw
    by_cases hk : k1 = k
    · simp only [olookup, if_pos hk, Option.some.injEq] at hl
      subst hl
      subst hk
      exact ⟨hw.1.1.1, hw.1.1.2, hw.1.2⟩
    · simp only [olookup, if_neg hk] at hl
      exact WTO_lookup hw.2 hl

theorem hasKO_qstep {key : String} (d : Value) (q : OList) {k2 : String} (h : key ≠ k2) :
    hasKO k2 (qstep key d q) = hasKO k2 q := by
  unfold qstep
  split
  · rfl
  · rw [hasKO_osetK]
    simp [h]

theorem olookup_qstep {key : String} (d : Value) (q : OList) {k2 : String} (h : k2 ≠ key) :
    olookup k2 (qstep key d q) = olookup k2 q := by
  unfold qstep
  split
  · rfl
  · exact olookup_osetK_other d h q

theorem quizFix_total (st : St) {q : OList}
    (h : (hasKO "totalQuestions" q || lenOK (olookupD "questions" q (.arr .nil))) = true) :
    ∃ r, quizFix st q = .ok r := by
  unfold quizFix
  simp only []
  set p1 := (if hasKO "formId" q then (q, st)
    else (osetK "formId" (.str ("quiz_form_" ++ Nat.repr (randint st 100000 999999).1)) q,
      (randint st 100000 999999).2)) with hp1def
  have hf1 : hasKO "totalQuestions" p1.1 = hasKO "totalQuestions" q ∧
      olookup "questions" p1.1 = olookup "questions" q := by
    rw [hp1def]
    by_cases hf : hasKO "formId" q = true
    · rw [if_pos hf]
      exact ⟨rfl, rfl⟩
    · rw [if_neg hf]
      refine ⟨?_, olookup_osetK_other _ (by decide) q⟩
      show hasKO "totalQuestions" (osetK "formId" _ q) = _
      rw [hasKO_osetK]
      simp
  have h6 : hasKO "totalQuestions" (qstep "allowResponseEditing" (.bool false)
        (qstep "collectEmailAddresses" (.bool true) (qstep "isQuiz" (.bool true)
          (qstep "title" (.str "Sample Quiz")
            (qstep "formUrl" (.str "https://forms.example.com/placeholder") p1.1))))) =
        hasKO "totalQuestions" q ∧
      olookup "questions" (qstep "allowResponseEditing" (.bool false)
        (qstep "collectEmailAddresses" (.bool true) (qstep "isQuiz" (.bool true)
          (qstep "title" (.str "Sample Quiz")
            (qstep "formUrl" (.str "https://forms.example.com/placeholder") p1.1))))) =
        olookup "questions" q := by
    constructor
    · rw [hasKO_qstep _ _ (by decide), hasKO_qstep _ _ (by decide), hasKO_qstep _ _ (by decide),
        hasKO_qstep _ _ (by decide), hasKO_qstep _ _ (by decide), hf1.1]
    · rw [olookup_qstep _ _ (by decide), olookup_qstep _ _ (by decide),
        olookup_qstep _ _ (by decide), olookup_qstep _ _ (by decide),
        olookup_qstep _ _ (by decide), hf1.2]
  simp only [olookupD] at h
  simp only [olookupD, h6.1, h6.2]
  by_cases htq : hasKO "totalQuestions" q = true
  · rw [if_pos htq]
    exact ⟨_, rfl⟩
  · rw [if_neg htq]
    simp only [Bool.not_eq_true] at htq
    rw [htq, Bool.false_or] at h
    obtain ⟨n, hn⟩ := pyLen_of_lenOK h
    rw [hn, ebind_ok]
    exact ⟨_, rfl⟩

theorem strOK_str {k : String} {v : Value} (hs : strOK k v = true)
    (hm : inspectedKeys.contains k = true) : ∃ s, v = .str s := by
  rw [strOK, hm] at hs
  simp only [Bool.not_true, Bool.false_or] at hs
  cases v <;> first | exact ⟨_, rfl⟩ | (exfalso; simp [isStrB] at hs)

theorem isObjB_obj {v : Value} (h : isObjB v = true) : ∃ q, v = .obj q := by
  cases v <;> first | exact ⟨_, rfl⟩ | (exfalso; simp [isObjB] at h)

theorem entryStep_total (st : St) (k : String) (v : Value)
    (hs : strOK k v = true) (hq : quizOK k v = true) :
    ∃ r, entryStep st k v = .ok r := by
  unfold entryStep
  by_cases c1 : (k = "email" ∨ k = "teacherEmail") ∧ v = .str "stewart.chan@gapps.yrdsb.ca"
  · rw [if_pos c1]
    exact ⟨_, rfl⟩
  · rw [if_neg c1]
    by_cases c2 : (k = "email" ∨ k = "studentEmail") ∧
        infB ("@gapps.yrdsb.ca" : String).data (pyStr v).data = true
    · rw [if_pos c2]
      obtain ⟨s, rfl⟩ := strOK_str hs (by rcases c2.1 with h | h <;> subst h <;> decide)
      rw [show pySplitAtSign (Value.str s) = .ok (splitAtSign s) from rfl, ebind_ok]
      by_cases hdg : pyIsdigit ((splitAtSign s).headD "") = true
      · rw [if_pos hdg]
        rcases hlk : alookup ((splitAtSign s).headD "") st.student_number_mapping with _ | r <;>
          exact ⟨_, rfl⟩
      · rw [if_neg hdg]
        exact ⟨_, rfl⟩
    · rw [if_neg c2]
      by_cases c3 : (k = "name" ∨ k = "displayName" ∨ k = "studentName") ∧
          isStrB v = true ∧ (alookup v st.name_mapping).isSome = true
      · rw [if_pos c3]
        exact ⟨_, rfl⟩
      · rw [if_neg c3]
        by_cases c4 : k = "studentId"
        · rw [if_pos c4]
          obtain ⟨s, rfl⟩ := strOK_str hs (by subst c4; decide)
          rw [show pyMem (Value.str s) st.student_id_mapping =
              .ok ((alookup (Value.str s) st.student_id_mapping).isSome) from rfl, ebind_ok]
          by_cases hmb : (alookup (Value.str s) st.student_id_mapping).isSome = true
          · rw [if_pos hmb]
            exact ⟨_, rfl⟩
          · rw [if_neg hmb]
            exact ⟨_, rfl⟩
        · rw [if_neg c4]
          by_cases c5 : k = "alternateLink" ∨ k = "formUrl" ∨ k = "responseUrl" ∨
              k = "thumbnailUrl" ∨ k = "photoUrl"
          · rw [if_pos c5]
            by_cases u1 : infB ("classroom.google.com" : String).data (pyStr v).data = true
            · rw [if_pos u1]
              exact ⟨_, rfl⟩
            · rw [if_neg u1]
              by_cases u2 : infB ("docs.google.com/forms" : String).data (pyStr v).data = true
              · rw [if_pos u2]
                exact ⟨_, rfl⟩
              · rw [if_neg u2]
                by_cases u3 : infB ("docs.google.com/spreadsheets" : String).data (pyStr v).data = true
                · rw [if_pos u3]
                  exact ⟨_, rfl⟩
                · rw [if_neg u3]
                  by_cases u4 : (infB ("googleusercontent.com" : String).data (pyStr v).data ||
                      prefB ("//lh" : String).data (pyStr v).data) = true
                  · rw [if_pos u4]
                    exact ⟨_, rfl⟩
                  · rw [if_neg u4]
                    exact ⟨_, rfl⟩
          · rw [if_neg c5]
            by_cases c6 : k = "quizData" ∧ isObjB v = true
            · rw [if_pos c6]
              obtain ⟨q, rfl⟩ := isObjB_obj c6.2
              have hq2 : (hasKO "totalQuestions" q ||
                  lenOK (olookupD "questions" q (.arr .nil))) = true := by
                rw [c6.1] at hq
                simpa [quizOK] using hq
              obtain ⟨r, hr⟩ := quizFix_total st hq2
              show ∃ r2, (do
                let r3 ← quizFix st q
                Except.ok (some (Value.obj r3.1, r3.2))) = .ok r2
              rw [hr, ebind_ok]
              exact ⟨_, rfl⟩
            · rw [if_neg c6]
              by_cases c7 : k = "courseGroupEmail"
              · rw [if_pos c7]
                obtain ⟨s, rfl⟩ := strOK_str hs (by subst c7; decide)
                rw [show pyReplaceVal (Value.str s) "@gapps.yrdsb.ca" "@example.com" =
                    .ok ⟨replFuel ("@gapps.yrdsb.ca" : String).data ("@example.com" : String).data
                      s.data.length s.data⟩ from rfl, ebind_ok]
                exact ⟨_, rfl⟩
              · rw [if_neg c7]
                by_cases c8 : isContainer v = true
                · rw [if_pos c8]
                  exact ⟨_, rfl⟩
                · rw [if_neg c8]
                  exact ⟨_, rfl⟩

mutual
theorem replaceV_total : ∀ (v : Value) (st : St), WTV v = true → ∃ r, replaceV st v = .ok r
  | .str _, _, _ => ⟨_, rfl⟩
  | .int _, _, _ => ⟨_, rfl⟩
  | .bool _, _, _ => ⟨_, rfl⟩
  | .null, _, _ => ⟨_, rfl⟩
  | .arr xs, st, hw => by
    obtain ⟨⟨ys, st2⟩, hr⟩ := replaceL_total xs st (by simpa [WTV] using hw)
    exact ⟨(.arr ys, st2), by rw [replaceV, hr, ebind_ok]⟩
  | .obj kvs, st, hw => by
    obtain ⟨⟨out, st2⟩, hr⟩ := replaceO_total kvs st .nil (by simpa [WTV] using hw)
    exact ⟨(.obj (fixSubmission out), st2), by rw [replaceV, hr, ebind_ok]⟩

theorem replaceL_total : ∀ (xs : VList) (st : St), WTL xs = true → ∃ r, replaceL st xs = .ok r
  | .nil, _, _ => ⟨_, rfl⟩
  | .cons v tl, st, hw => by
    simp only [WTL, Bool.and_eq_true] at hw
    obtain ⟨⟨w, st2⟩, hv⟩ := replaceV_total v st hw.1
    obtain ⟨⟨ys, st3⟩, ht⟩ := replaceL_total tl st2 hw.2
    refine ⟨(.cons w ys, st3), ?_⟩
    rw [replaceL, hv, ebind_ok]
    show (do
      let rs ← replaceL st2 tl
      Except.ok (VList.cons w rs.1, rs.2)) = _
    rw [ht, ebind_ok]

theorem replaceO_total : ∀ (kvs : OList) (st : St) (acc : OList), WTO kvs = true →
    ∃ r, replaceO st acc kvs = .ok r
  | .nil, _, _, _ => ⟨_, rfl⟩
  | .cons k v tl, st, acc, hw => by
    simp only [WTO, Bool.and_eq_true] at hw
    obtain ⟨r0, he⟩ := entryStep_total st k v hw.1.1.1 hw.1.1.2
    rw [replaceO, he, ebind_ok]
    rcases r0 with _ | ⟨w, st2⟩
    · obtain ⟨⟨w1, st3⟩, hv⟩ := replaceV_total v st hw.1.2
      show ∃ r, (do
        let r1 ← replaceV st v
        replaceO r1.2 (osetK k r1.1 acc) tl) = .ok r
      rw [hv, ebind_ok]
      show ∃ r, replaceO st3 (osetK k w1 acc) tl = .ok r
      exact replaceO_total tl st3 (osetK k w1 acc) hw.2
    · show ∃ r, replaceO st2 (osetK k w acc) tl = .ok r
      exact replaceO_total tl st2 (osetK k w acc) hw.2
end

theorem collectPair_total (st : St) {se sn : String} :
    ∃ st2, collectPair st (.str se) (.str sn) = .ok st2 := by
  unfold collectPair
  rw [show pyContains "@gapps.yrdsb.ca" (Value.str se) =
      .ok (infB ("@gapps.yrdsb.ca" : String).data se.data) from rfl, ebind_ok]
  by_cases hc : infB ("@gapps.yrdsb.ca" : String).data se.data = true
  · rw [if_pos hc]
    rw [show pySplitAtSign (Value.str se) = .ok (splitAtSign se) from rfl, ebind_ok]
    by_cases hdg : pyIsdigit ((splitAtSign se).headD "") = true
    · rw [if_pos hdg]
      rw [show pyMem (Value.str sn) st.name_mapping =
          .ok ((alookup (Value.str sn) st.name_mapping).isSome) from rfl, ebind_ok]
      simp only []
      repeat' split
      all_goals exact ⟨_, rfl⟩
    · rw [if_neg hdg]
      exact ⟨_, rfl⟩
  · rw [if_neg hc]
    exact ⟨_, rfl⟩

theorem collectEmailOnly_total (st : St) {se : String} :
    ∃ st2, collectEmailOnly st (.str se) = .ok st2 := by
  unfold collectEmailOnly
  rw [show pyContains "@gapps.yrdsb.ca" (Value.str se) =
      .ok (infB ("@gapps.yrdsb.ca" : String).data se.data) from rfl, ebind_ok]
  by_cases hc : infB ("@gapps.yrdsb.ca" : String).data se.data = true
  · rw [if_pos hc]
    rw [show pySplitAtSign (Value.str se) = .ok (splitAtSign se) from rfl, ebind_ok]
    simp only []
    repeat' split
    all_goals exact ⟨_, rfl⟩
  · rw [if_neg hc]
    exact ⟨_, rfl⟩

theorem collectStudentId_total (st : St) {s : String} :
    ∃ st2, collectStudentId st (.str s) = .ok st2 := by
  unfold collectStudentId
  rw [show pyMem (Value.str s) st.student_id_mapping =
      .ok ((alookup (Value.str s) st.student_id_mapping).isSome) from rfl, ebind_ok]
  by_cases hm : (alookup (Value.str s) st.student_id_mapping).isSome = true
  · rw [if_pos hm]
    exact ⟨_, rfl⟩
  · rw [if_neg hm]
    rw [show pyLen (Value.str s) = .ok s.length from rfl, ebind_ok]
    exact ⟨_, rfl⟩

theorem collectNode_total (st : St) {kvs : OList}
    (hstr : ∀ k2 v2, olookup k2 kvs = some v2 → strOK k2 v2 = true) :
    ∃ st2, collectNode st kvs = .ok st2 := by
  have stage1 : ∀ st0 : St, ∃ st2, (match olookup "name" kvs, olookup "email" kvs with
      | some name, some email => collectPair st0 email name
      | _, _ => .ok st0) = .ok st2 := by
    intro st0
    rcases hn : olookup "name" kvs with _ | nv <;> rcases he : olookup "email" kvs with _ | ev
    · exact ⟨st0, rfl⟩
    · exact ⟨st0, rfl⟩
    · exact ⟨st0, rfl⟩
    · obtain ⟨sn, rfl⟩ := strOK_str (hstr _ _ hn) (by decide)
      obtain ⟨se, rfl⟩ := strOK_str (hstr _ _ he) (by decide)
      exact collectPair_total st0
  have stage2 : ∀ st0 : St, ∃ st2, (match olookup "studentEmail" kvs, olookup "studentName" kvs with
      | some email, some name => collectPair st0 email name
      | _, _ => .ok st0) = .ok st2 := by
    intro st0
    rcases hn : olookup "studentEmail" kvs with _ | ev <;>
      rcases he : olookup "studentName" kvs with _ | nv
    · exact ⟨st0, rfl⟩
    · exact ⟨st0, rfl⟩
    · exact ⟨st0, rfl⟩
    · obtain ⟨se, rfl⟩ := strOK_str (hstr _ _ hn) (by decide)
      obtain ⟨sn, rfl⟩ := strOK_str (hstr _ _ he) (by decide)
      exact collectPair_total st0
  have stage3 : ∀ st0 : St, ∃ st2, (match olookup "email" kvs with
      | some email => collectEmailOnly st0 email
      | none => .ok st0) = .ok st2 := by
    intro st0
    rcases he : olookup "email" kvs with _ | ev
    · exact ⟨st0, rfl⟩
    · obtain ⟨se, rfl⟩ := strOK_str (hstr _ _ he) (by decide)
      exact collectEmailOnly_total st0
  have stage4 : ∀ st0 : St, ∃ st2, (match olookup "studentId" kvs with
      | some sid => collectStudentId st0 sid
      | none => .ok st0) = .ok st2 := by
    intro st0
    rcases hsid : olookup "studentId" kvs with _ | sv
    · exact ⟨st0, rfl⟩
    · obtain ⟨s, rfl⟩ := strOK_str (hstr _ _ hsid) (by decide)
      exact collectStudentId_total st0
  unfold collectNode
  rw [ebind_ok]
  obtain ⟨stA, hA⟩ := stage1 (collectTeacher st kvs)
  rw [hA, ebind_ok]
  obtain ⟨stB, hB⟩ := stage2 stA
  rw [hB, ebind_ok]
  obtain ⟨stC, hC⟩ := stage3 stB
  rw [hC, ebind_ok]
  exact stage4 stC

mutual
theorem collectV_total : ∀ (v : Value) (st : St), WTV v = true → ∃ st2, collectV st v = .ok st2
  | .str _, _, _ => ⟨_, rfl⟩
  | .int _, _, _ => ⟨_, rfl⟩
  | .bool _, _, _ => ⟨_, rfl⟩
  | .null, _, _ => ⟨_, rfl⟩
  | .arr xs, st, hw => collectL_total xs st (by simpa [WTV] using hw)
  | .obj kvs, st, hw => by
    have hw2 : WTO kvs = true := by simpa [WTV] using hw
    obtain ⟨stA, hA⟩ := collectNode_total st (fun k2 v2 hl => (WTO_lookup hw2 hl).1)
    show ∃ st2, (collectNode st kvs >>= fun x => collectO x kvs) = .ok st2
    rw [hA, ebind_ok]
    exact collectO_total kvs stA hw2

theorem collectL_total : ∀ (xs : VList) (st : St), WTL xs = true → ∃ st2, collectL st xs = .ok st2
  | .nil, _, _ => ⟨_, rfl⟩
  | .cons v tl, st, hw => by
    simp only [WTL, Bool.and_eq_true] at hw
    obtain ⟨stA, hA⟩ := collectV_total v st hw.1
    show ∃ st2, (collectV st v >>= fun x => collectL x tl) = .ok st2
    rw [hA, ebind_ok]
    exact collectL_total tl stA hw.2

theorem collectO_total : ∀ (kvs : OList) (st : St), WTO kvs = true → ∃ st2, collectO st kvs = .ok st2
  | .nil, _, _ => ⟨_, rfl⟩
  | .cons k v tl, st, hw => by
    simp only [WTO, Bool.and_eq_true] at hw
    obtain ⟨stA, hA⟩ := collectV_total v st hw.1.2
    show ∃ st2, (collectV st v >>= fun x => collectO x tl) = .ok st2
    rw [hA, ebind_ok]
    exact collectO_total tl stA hw.2
end

/-- C3: Corrected. The original claim (a rule whose inspected field is
absent or wrongly typed is always a silent no-op) is false: a non-string
under `courseGroupEmail` raises `AttributeError` in `value.replace`, and
wrongly typed values can also crash the collection pass (`in`, `len`,
unhashable dict keys). What holds: absent fields are no-ops, and on every
well-typed document — inspected fields hold strings and `quizData` maps
admit the `totalQuestions` backfill — the whole transformation succeeds. -/
theorem C3_welltyped_total (gen : Nat → Nat) {data : Value} (h : WTV data = true) :
    ∃ out, anonymize_json gen data = .ok out := by
  obtain ⟨st, hc⟩ := collectV_total data (initSt gen) h
  obtain ⟨⟨w, st2⟩, hr⟩ := replaceV_total data st h
  refine ⟨w, ?_⟩
  show (collectV (initSt gen) data >>= fun st3 => replaceV st3 data >>= fun r => Except.ok r.1)
      = .ok w
  rw [hc, ebind_ok, hr, ebind_ok]

theorem pyIsdigit_reverse {d : String} (h : pyIsdigit d = true) :
    pyIsdigit (reverse_student_number d) = true := by
  unfold pyIsdigit at h
  unfold pyIsdigit reverse_student_number
  show (!(d.data.reverse).isEmpty && (d.data.reverse).all Char.isDigit) = true
  simp only [Bool.and_eq_true, Bool.not_eq_true', List.all_eq_true] at h ⊢
  obtain ⟨h1, h2⟩ := h
  constructor
  · cases hr : d.data.reverse with
    | nil =>
      have hd0 : d.data = [] := List.reverse_eq_nil_iff.mp hr
      rw [hd0] at h1
      exact absurd h1 (by decide)
    | cons c tl => rfl
  · intro c hc
    exact h2 c (List.mem_reverse.mp hc)

theorem reverse_reverse_student_number (d : String) :
    reverse_student_number (reverse_student_number d) = d := by
  unfold reverse_student_number
  show (⟨d.data.reverse.reverse⟩ : String) = d
  rw [List.reverse_reverse]

theorem entryStep_studentId {st : St} {s f : String}
    (h : alookup (.str s) st.student_id_mapping = some f) :
    entryStep st "studentId" (.str s) = .ok (some (.str f, st)) := by
  unfold entryStep
  rw [if_neg (fun hc => absurd hc.1 (by decide))]
  rw [if_neg (fun hc => absurd hc.1 (by decide))]
  rw [if_neg (fun hc => absurd hc.1 (by decide))]
  rw [if_pos rfl]
  rw [show pyMem (Value.str s) st.student_id_mapping =
      .ok ((alookup (Value.str s) st.student_id_mapping).isSome) from rfl, ebind_ok]
  rw [h]
  simp [h]

/-- C1: Corrected. The original claim (a second run leaves
already-anonymized email and name values unchanged) is false for emails:
at any state reachable in a run, the student-email rule maps an
already-reversed all-digit local part to its reversal again — restoring
the original number, not leaving it unchanged (it is a fixed point only
for palindromic numbers). Synthetic names can be preserved, but
placeholder emails are flipped back on every rerun. -/
theorem C1_second_run_reverses_again {gen : Nat → Nat} {st : St}
    (h : Steps (initSt gen) st) {k : String} (hk : k = "email" ∨ k = "studentEmail")
    {d : String} (hd : pyIsdigit d = true) :
    entryStep st k (.str (reverse_student_number d ++ "@gapps.yrdsb.ca")) =
      .ok (some (.str (d ++ "@gapps.yrdsb.ca"), st)) := by
  have hd2 : pyIsdigit (reverse_student_number d) = true := pyIsdigit_reverse hd
  have h2 := entryStep_email_digits (steps_snminv h (initSt_snminv gen)) hk hd2
  rwa [reverse_reverse_student_number] at h2

theorem C1_witness :
    entryStep (initSt gen0) "email"
      (.str (reverse_student_number "123456789" ++ "@gapps.yrdsb.ca")) =
      .ok (some (.str ("123456789" ++ "@gapps.yrdsb.ca"), initSt gen0)) :=
  C1_second_run_reverses_again Steps.rfl (Or.inl rfl) (by decide)

/-- C2: Corrected. The original claim allowed only `updatedAt` and
`attachments` as extra output keys, but the `quizData` repair can add up
to eleven further keys to a map that is the value of a `quizData` entry.
What holds on every well-formed input (distinct keys per map, as
`json.load` guarantees): the output is key-and-length congruent to the
input — every map keeps its keys in order plus extras drawn from
`allowedExtra` (the eleven quiz backfills on `quizData` values, the two
submission repairs on nodes with `studentEmail` and `studentName`), and
every array keeps its length elementwise. -/
theorem C2_structural_congruence (gen : Nat → Nat) {data out : Value}
    (hwf : WFV data = true) (h : anonymize_json gen data = .ok out) :
    KC false data out := by
  replace h : (collectV (initSt gen) data >>= fun st =>
      replaceV st data >>= fun r => Except.ok r.1) = .ok out := h
  rcases hc : collectV (initSt gen) data with e | st
  · rw [hc, ebind_err] at h
    cases h
  · rw [hc, ebind_ok] at h
    rcases hr : replaceV st data with e | r
    · rw [hr, ebind_err] at h
      cases h
    · rw [hr, ebind_ok] at h
      obtain ⟨w, st2⟩ := r
      simp only [Except.ok.injEq] at h
      rw [← h]
      exact replaceV_kc data hr hwf

set_option maxRecDepth 10000 in
theorem C2_witness : WFV (.obj (.cons "a" (.int 1) .nil)) = true ∧
    KC false (.obj (.cons "a" (.int 1) .nil)) (.obj (.cons "a" (.int 1) .nil)) :=
  ⟨by decide, C2_structural_congruence gen0 (by decide) (by rfl)⟩

/-- C4: Corrected. After any successful collection pass starting from the
initial state, every distinct real name maps to exactly one synthetic name
(the mapping's keys are distinct), and any synthetic name bound to two or
more real names is either the shared teacher placeholder "Dev CodePet"
(bound to both "Stewart Chan" and "Test Teacher" from the start — an
exception the original claim omitted) or a numeric-suffix fallback name. -/
theorem C4_name_mapping_invariant {gen : Nat → Nat} {data : Value} {st : St}
    (h : collectV (initSt gen) data = .ok st) :
    (st.name_mapping.map Prod.fst).Nodup ∧
    ∀ s, 2 ≤ (st.name_mapping.map Prod.snd).count s →
      s = "Dev CodePet" ∨ hasDigitStr s = true := by
  have hinv : NameInv st.name_mapping st.used_names :=
    steps_nameinv (collectV_steps data h) (initSt_nameinv gen)
  exact ⟨hinv.1, nameinv_count hinv⟩

theorem C4_witness : ((initSt gen0).name_mapping.map Prod.fst).Nodup ∧
    ∀ s, 2 ≤ ((initSt gen0).name_mapping.map Prod.snd).count s →
      s = "Dev CodePet" ∨ hasDigitStr s = true :=
  @C4_name_mapping_invariant gen0 .null (initSt gen0) rfl

theorem C4_counterexample :
    collectV (initSt gen0) .null = .ok (initSt gen0) ∧
    (initSt gen0).name_mapping.map Prod.snd = ["Dev CodePet", "Dev CodePet"] ∧
    ¬ ((initSt gen0).name_mapping.map Prod.snd).Nodup ∧
    hasDigitStr "Dev CodePet" = false :=
  ⟨rfl, rfl, by simp [initSt], by decide⟩

/-- C5: Confirmed. At any two states reachable from the initial state (so
in particular at the state any occurrence is rewritten at), the
student-email rule maps an institutional-domain email with all-digit
local part `d` to the same output string, namely the character reversal
of `d` followed by the domain — so every occurrence of the same student
number receives the identical synthetic replacement. -/
theorem C5_email_reversal_consistent {gen gen2 : Nat → Nat} {st st2 : St}
    (h1 : Steps (initSt gen) st) (h2 : Steps (initSt gen2) st2) {k : String}
    (hk : k = "email" ∨ k = "studentEmail") {d : String} (hd : pyIsdigit d = true) :
    ∃ out, entryStep st k (.str (d ++ "@gapps.yrdsb.ca")) = .ok (some (.str out, st)) ∧
      entryStep st2 k (.str (d ++ "@gapps.yrdsb.ca")) = .ok (some (.str out, st2)) ∧
      out = reverse_student_number d ++ "@gapps.yrdsb.ca" := by
  refine ⟨reverse_student_number d ++ "@gapps.yrdsb.ca", ?_, ?_, rfl⟩
  · exact entryStep_email_digits (steps_snminv h1 (initSt_snminv gen)) hk hd
  · exact entryStep_email_digits (steps_snminv h2 (initSt_snminv gen2)) hk hd

theorem C5_witness : reverse_student_number "123456789" = "987654321" ∧
    ∃ out, entryStep (initSt gen0) "email" (.str ("123456789" ++ "@gapps.yrdsb.ca")) =
        .ok (some (.str out, initSt gen0)) ∧
      entryStep (initSt gen0) "email" (.str ("123456789" ++ "@gapps.yrdsb.ca")) =
        .ok (some (.str out, initSt gen0)) ∧
      out = reverse_student_number "123456789" ++ "@gapps.yrdsb.ca" :=
  ⟨rfl, C5_email_reversal_consistent Steps.rfl Steps.rfl (Or.inl rfl) (by decide)⟩

/-- C9: Corrected. The name-less block of the collection pass looks only
at `email` (line 113), not at `studentEmail`: a bare `email` field with a
student-domain all-digit local part is recorded (mapped to its reversal)
at any node of the document, but a bare `studentEmail` is not recorded
(see the counterexample). -/
theorem C9_bare_email_collection {gen : Nat → Nat} {data : Value} {st : St}
    (hc : collectV (initSt gen) data = .ok st)
    {kvs : OList} (hsub : Subnode (.obj kvs) data) {d : String}
    (he : olookup "email" kvs = some (.str (d ++ "@gapps.yrdsb.ca")))
    (hd : pyIsdigit d = true) :
    alookup d st.student_number_mapping = some (reverse_student_number d) := by
  have hP : ∀ {a b : St}, CStep a b →
      alookup d a.student_number_mapping = some (reverse_student_number d) →
      alookup d b.student_number_mapping = some (reverse_student_number d) :=
    fun hstep hr => cstep_snm_mono hstep hr
  have hQ : ∀ {a b : St}, CStep a b → SnmInv a → SnmInv b :=
    fun hstep hi => cstep_snminv hstep hi
  have hnode : ∀ {s1 s2 : St} {kvs0 : OList}, collectNode s1 kvs0 = .ok s2 →
      olookup "email" kvs0 = some (.str (d ++ "@gapps.yrdsb.ca")) → SnmInv s1 →
      alookup d s2.student_number_mapping = some (reverse_student_number d) :=
    fun hn hC hq => collectNode_email_sets hn hC hd hq
  exact collectV_reach hP hQ hnode data hc hsub he (initSt_snminv gen)

set_option maxRecDepth 10000 in
theorem C9_witness :
    alookup "123456789" ({ initSt gen0 with
      student_number_mapping := [("123456789", "987654321")] } : St).student_number_mapping =
      some (reverse_student_number "123456789") :=
  @C9_bare_email_collection gen0
    (Value.obj (.cons "email" (.str ("123456789" ++ "@gapps.yrdsb.ca")) .nil))
    ({ initSt gen0 with student_number_mapping := [("123456789", "987654321")] }) (by rfl)
    (.cons "email" (.str ("123456789" ++ "@gapps.yrdsb.ca")) .nil) (Subnode.refl _)
    "123456789" rfl (by decide)

theorem C9_counterexample :
    collectV (initSt gen0)
      (.obj (.cons "studentEmail" (.str "123456789@gapps.yrdsb.ca") .nil)) =
      .ok (initSt gen0) ∧
    (initSt gen0).student_number_mapping = [] :=
  ⟨rfl, rfl⟩

/-- C10: Confirmed. A rewritten `quizData` map consists of exactly the
input map's entries, in order and verbatim (nested content included,
untouched by any anonymization rule), followed by exactly the absent
backfill keys among the eleven, in source order. -/
theorem C10_quiz_frame {st st2 : St} {q : OList} {w : Value}
    (h : entryStep st "quizData" (.obj q) = .ok (some (w, st2))) :
    ∃ extra, w = .obj (oappend q extra) ∧
      okeys extra = quizKeys.filter (fun k2 => !(hasKO k2 q)) := by
  unfold entryStep at h
  rw [if_neg (fun hc => absurd hc.1 (by decide))] at h
  rw [if_neg (fun hc => absurd hc.1 (by decide))] at h
  rw [if_neg (fun hc => absurd hc.1 (by decide))] at h
  rw [if_neg (by decide)] at h
  rw [if_neg (by decide)] at h
  rw [if_pos ⟨rfl, rfl⟩] at h
  replace h : (do
      let r ← quizFix st q
      Except.ok (some (Value.obj r.1, r.2))) = .ok (some (w, st2)) := h
  rcases hq2 : quizFix st q with e | r
  · rw [hq2, ebind_err] at h
    cases h
  · rw [hq2, ebind_ok] at h
    obtain ⟨qout, st3⟩ := r
    simp only [Except.ok.injEq, Option.some.injEq, Prod.mk.injEq] at h
    obtain ⟨extra, h1, h2⟩ := quizFix_spec hq2
    exact ⟨extra, by rw [← h.1, h1], h2⟩

theorem C3_witness : WTV (.obj (.cons "email" (.str "x") (.cons "quizData" (.obj .nil) .nil))) = true ∧
    ∃ out, anonymize_json gen0
      (.obj (.cons "email" (.str "x") (.cons "quizData" (.obj .nil) .nil))) = .ok out :=
  ⟨by decide, C3_welltyped_total gen0 (by decide)⟩

theorem C3_counterexample :
    anonymize_json gen0 (.obj (.cons "courseGroupEmail" (.int 5) .nil)) =
      .error .attributeError := rfl

/-- C6: Confirmed. After a successful collection pass, every `studentId`
field with a string value `s` anywhere in the document has an entry in
the Student-ID Mapping whose replacement is a same-length all-digit
string, and the rewrite rule replaces `s` with exactly that entry — the
single shared table makes the substitution identical at every occurrence
of the same ID within the run. -/
theorem C6_student_id_replacement {gen : Nat → Nat} {data : Value} {st : St}
    (hc : collectV (initSt gen) data = .ok st)
    {kvs : OList} (hsub : Subnode (.obj kvs) data)
    {s : String} (hs : olookup "studentId" kvs = some (.str s)) :
    ∃ f, alookup (.str s) st.student_id_mapping = some f ∧
      f.length = s.length ∧ f.data.all Char.isDigit = true ∧
      entryStep st "studentId" (.str s) = .ok (some (.str f, st)) := by
  have hP : ∀ {a b : St}, CStep a b →
      (∃ r, alookup (.str s) a.student_id_mapping = some r) →
      (∃ r, alookup (.str s) b.student_id_mapping = some r) :=
    fun hstep h2 => h2.elim (fun r hr => ⟨r, cstep_sim_mono hstep hr⟩)
  have hQ : ∀ {a b : St}, CStep a b → True → True := fun _ _ => trivial
  have hnode : ∀ {s1 s2 : St} {kvs0 : OList}, collectNode s1 kvs0 = .ok s2 →
      olookup "studentId" kvs0 = some (.str s) → True →
      ∃ r, alookup (.str s) s2.student_id_mapping = some r := by
    intro s1 s2 kvs0 hn hC _
    exact Option.isSome_iff_exists.mp (collectNode_sid_sets hn hC)
  obtain ⟨f, hf⟩ := collectV_reach hP hQ hnode data hc hsub hs trivial
  have hsim : SimInv st := steps_siminv (collectV_steps data hc) (initSt_siminv gen)
  obtain ⟨s1, hkey, hlen, hdig⟩ := hsim _ (alookup_mem hf)
  simp only [Value.str.injEq] at hkey
  refine ⟨f, hf, ?_, hdig, entryStep_studentId hf⟩
  rw [hlen, ← hkey]

set_option maxRecDepth 10000 in
theorem C6_witness : ∃ f,
    alookup (.str "ab") ({ initSt gen0 with ctr := 2, student_id_mapping := [(.str "ab", "00")] } : St).student_id_mapping = some f ∧
    f.length = ("ab" : String).length ∧ f.data.all Char.isDigit = true ∧
    entryStep ({ initSt gen0 with ctr := 2, student_id_mapping := [(.str "ab", "00")] } : St)
        "studentId" (.str "ab") =
      .ok (some (.str f,
        { initSt gen0 with ctr := 2, student_id_mapping := [(.str "ab", "00")] })) :=
  @C6_student_id_replacement gen0 (Value.obj (.cons "studentId" (.str "ab") .nil))
    ({ initSt gen0 with ctr := 2, student_id_mapping := [(.str "ab", "00")] })
    (by rfl) (.cons "studentId" (.str "ab") .nil) (Subnode.refl _) "ab" rfl

set_option maxRecDepth 100000 in
theorem quizFix_q123 (st : St) :
    quizFix st (.cons "questions" (.arr (.cons (.int 1) (.cons (.int 2) (.cons (.int 3) .nil)))) .nil) =
      .ok ((.cons "questions" (.arr (.cons (.int 1) (.cons (.int 2) (.cons (.int 3) .nil)))) (.cons "formId" (Value.str ("quiz_form_" ++ Nat.repr (randint st 100000 999999).1)) (.cons "formUrl" (.str "https://forms.example.com/placeholder") (.cons "title" (.str "Sample Quiz") (.cons "isQuiz" (.bool true) (.cons "collectEmailAddresses" (.bool true) (.cons "allowResponseEditing" (.bool false) (.cons "totalQuestions" (.int 3) (.cons "totalPoints" (.int 100) (.cons "autoGradableQuestions" (.int 0) (.cons "manualGradingRequired" (.bool true) (.cons "requireSignIn" (.bool true) .nil)))))))))))),
        (randint st 100000 999999).2) := by
  unfold quizFix
  simp only []
  rw [if_neg (show ¬(hasKO "formId" (.cons "questions" (.arr (.cons (.int 1) (.cons (.int 2) (.cons (.int 3) .nil)))) .nil) = true) from by decide)]
  set w := Value.str ("quiz_form_" ++ Nat.repr (randint st 100000 999999).1) with hw
  rw [show (osetK "formId" w (.cons "questions" (.arr (.cons (.int 1) (.cons (.int 2) (.cons (.int 3) .nil)))) .nil), (randint st 100000 999999).2).1 = (.cons "questions" (.arr (.cons (.int 1) (.cons (.int 2) (.cons (.int 3) .nil)))) (.cons "formId" w .nil)) from rfl]
  rw [show qstep "formUrl" (.str "https://forms.example.com/placeholder") (.cons "questions" (.arr (.cons (.int 1) (.cons (.int 2) (.cons (.int 3) .nil)))) (.cons "formId" w .nil)) = (.cons "questions" (.arr (.cons (.int 1) (.cons (.int 2) (.cons (.int 3) .nil)))) (.cons "formId" w (.cons "formUrl" (.str "https://forms.example.com/placeholder") .nil))) from rfl]
  rw [show qstep "title" (.str "Sample Quiz") (.cons "questions" (.arr (.cons (.int 1) (.cons (.int 2) (.cons (.int 3) .nil)))) (.cons "formId" w (.cons "formUrl" (.str "https://forms.example.com/placeholder") .nil))) = (.cons "questions" (.arr (.cons (.int 1) (.cons (.int 2) (.cons (.int 3) .nil)))) (.cons "formId" w (.cons "formUrl" (.str "https://forms.example.com/placeholder") (.cons "title" (.str "Sample Quiz") .nil)))) from rfl]
  rw [show qstep "isQuiz" (.bool true) (.cons "questions" (.arr (.cons (.int 1) (.cons (.int 2) (.cons (.int 3) .nil)))) (.cons "formId" w (.cons "formUrl" (.str "https://forms.example.com/placeholder") (.cons "title" (.str "Sample Quiz") .nil)))) = (.cons "questions" (.arr (.cons (.int 1) (.cons (.int 2) (.cons (.int 3) .nil)))) (.cons "formId" w (.cons "formUrl" (.str "https://forms.example.com/placeholder") (.cons "title" (.str "Sample Quiz") (.cons "isQuiz" (.bool true) .nil))))) from rfl]
  rw [show qstep "collectEmailAddresses" (.bool true) (.cons "questions" (.arr (.cons (.int 1) (.cons (.int 2) (.cons (.int 3) .nil)))) (.cons "formId" w (.cons "formUrl" (.str "https://forms.example.com/placeholder") (.cons "title" (.str "Sample Quiz") (.cons "isQuiz" (.bool true) .nil))))) = (.cons "questions" (.arr (.cons (.int 1) (.cons (.int 2) (.cons (.int 3) .nil)))) (.cons "formId" w (.cons "formUrl" (.str "https://forms.example.com/placeholder") (.cons "title" (.str "Sample Quiz") (.cons "isQuiz" (.bool true) (.cons "collectEmailAddresses" (.bool true) .nil)))))) from rfl]
  rw [show qstep "allowResponseEditing" (.bool false) (.cons "questions" (.arr (.cons (.int 1) (.cons (.int 2) (.cons (.int 3) .nil)))) (.cons "formId" w (.cons "formUrl" (.str "https://forms.example.com/placeholder") (.cons "title" (.str "Sample Quiz") (.cons "isQuiz" (.bool true) (.cons "collectEmailAddresses" (.bool true) .nil)))))) = (.cons "questions" (.arr (.cons (.int 1) (.cons (.int 2) (.cons (.int 3) .nil)))) (.cons "formId" w (.cons "formUrl" (.str "https://forms.example.com/placeholder") (.cons "title" (.str "Sample Quiz") (.cons "isQuiz" (.bool true) (.cons "collectEmailAddresses" (.bool true) (.cons "allowResponseEditing" (.bool false) .nil))))))) from rfl]
  rw [if_neg (show ¬(hasKO "totalQuestions" (.cons "questions" (.arr (.cons (.int 1) (.cons (.int 2) (.cons (.int 3) .nil)))) (.cons "formId" w (.cons "formUrl" (.str "https://forms.example.com/placeholder") (.cons "title" (.str "Sample Quiz") (.cons "isQuiz" (.bool true) (.cons "collectEmailAddresses" (.bool true) (.cons "allowResponseEditing" (.bool false) .nil))))))) = true) from by
    rw [show hasKO "totalQuestions" (.cons "questions" (.arr (.cons (.int 1) (.cons (.int 2) (.cons (.int 3) .nil)))) (.cons "formId" w (.cons "formUrl" (.str "https://forms.example.com/placeholder") (.cons "title" (.str "Sample Quiz") (.cons "isQuiz" (.bool true) (.cons "collectEmailAddresses" (.bool true) (.cons "allowResponseEditing" (.bool false) .nil))))))) = false from rfl]
    exact Bool.false_ne_true)]
  rw [show pyLen (olookupD "questions" (.cons "questions" (.arr (.cons (.int 1) (.cons (.int 2) (.cons (.int 3) .nil)))) (.cons "formId" w (.cons "formUrl" (.str "https://forms.example.com/placeholder") (.cons "title" (.str "Sample Quiz") (.cons "isQuiz" (.bool true) (.cons "collectEmailAddresses" (.bool true) (.cons "allowResponseEditing" (.bool false) .nil))))))) (.arr .nil)) = .ok 3 from rfl, ebind_ok]
  simp only []
  rfl

/-- C7: Confirmed. For every state of the run, the rewrite of a
`quizData` entry whose value is the map `{"questions": [1, 2, 3]}`
contains `totalQuestions: 3`, `totalPoints: 100`, `isQuiz: true`,
`requireSignIn: true`, `manualGradingRequired: true`,
`collectEmailAddresses: true`, `allowResponseEditing: false`,
`autoGradableQuestions: 0`, some `formId` and `title` strings, the
placeholder `formUrl`, and the original `questions` entry verbatim. -/
theorem C7_quiz_backfill_scenario (st : St) :
    ∃ q2 st2, entryStep st "quizData"
        (.obj (.cons "questions"
          (.arr (.cons (.int 1) (.cons (.int 2) (.cons (.int 3) .nil)))) .nil)) =
        .ok (some (.obj q2, st2)) ∧
      olookup "totalQuestions" q2 = some (.int 3) ∧
      olookup "totalPoints" q2 = some (.int 100) ∧
      olookup "isQuiz" q2 = some (.bool true) ∧
      olookup "requireSignIn" q2 = some (.bool true) ∧
      olookup "manualGradingRequired" q2 = some (.bool true) ∧
      olookup "collectEmailAddresses" q2 = some (.bool true) ∧
      olookup "allowResponseEditing" q2 = some (.bool false) ∧
      olookup "autoGradableQuestions" q2 = some (.int 0) ∧
      (∃ s1, olookup "formId" q2 = some (.str s1)) ∧
      olookup "formUrl" q2 = some (.str "https://forms.example.com/placeholder") ∧
      (∃ s3, olookup "title" q2 = some (.str s3)) ∧
      olookup "questions" q2 =
        some (.arr (.cons (.int 1) (.cons (.int 2) (.cons (.int 3) .nil)))) := by
  refine ⟨(.cons "questions" (.arr (.cons (.int 1) (.cons (.int 2) (.cons (.int 3) .nil)))) (.cons "formId" (Value.str ("quiz_form_" ++ Nat.repr (randint st 100000 999999).1)) (.cons "formUrl" (.str "https://forms.example.com/placeholder") (.cons "title" (.str "Sample Quiz") (.cons "isQuiz" (.bool true) (.cons "collectEmailAddresses" (.bool true) (.cons "allowResponseEditing" (.bool false) (.cons "totalQuestions" (.int 3) (.cons "totalPoints" (.int 100) (.cons "autoGradableQuestions" (.int 0) (.cons "manualGradingRequired" (.bool true) (.cons "requireSignIn" (.bool true) .nil)))))))))))),
    (randint st 100000 999999).2, ?_, rfl, rfl, rfl, rfl, rfl, rfl, rfl, rfl,
    ⟨_, rfl⟩, rfl, ⟨_, rfl⟩, rfl⟩
  unfold entryStep
  rw [if_neg (fun hc => absurd hc.1 (by decide))]
  rw [if_neg (fun hc => absurd hc.1 (by decide))]
  rw [if_neg (fun hc => absurd hc.1 (by decide))]
  rw [if_neg (by decide)]
  rw [if_neg (by decide)]
  rw [if_pos ⟨rfl, rfl⟩]
  show (do
      let r ← quizFix st (.cons "questions" (.arr (.cons (.int 1) (.cons (.int 2) (.cons (.int 3) .nil)))) .nil)
      Except.ok (some (Value.obj r.1, r.2))) =
    Except.ok (some (.obj (.cons "questions" (.arr (.cons (.int 1) (.cons (.int 2) (.cons (.int 3) .nil)))) (.cons "formId" (Value.str ("quiz_form_" ++ Nat.repr (randint st 100000 999999).1)) (.cons "formUrl" (.str "https://forms.example.com/placeholder") (.cons "title" (.str "Sample Quiz") (.cons "isQuiz" (.bool true) (.cons "collectEmailAddresses" (.bool true) (.cons "allowResponseEditing" (.bool false) (.cons "totalQuestions" (.int 3) (.cons "totalPoints" (.int 100) (.cons "autoGradableQuestions" (.int 0) (.cons "manualGradingRequired" (.bool true) (.cons "requireSignIn" (.bool true) .nil)))))))))))),
      (randint st 100000 999999).2))
  rw [quizFix_q123 st, ebind_ok]

set_option maxRecDepth 100000 in
theorem C10_witness : ∃ extra,
    (Value.obj (.cons "formId" (.str "quiz_form_100000")
      (.cons "formUrl" (.str "https://forms.example.com/placeholder")
      (.cons "title" (.str "Sample Quiz")
      (.cons "isQuiz" (.bool true)
      (.cons "collectEmailAddresses" (.bool true)
      (.cons "allowResponseEditing" (.bool false)
      (.cons "totalQuestions" (.int 0)
      (.cons "totalPoints" (.int 100)
      (.cons "autoGradableQuestions" (.int 0)
      (.cons "manualGradingRequired" (.bool true)
      (.cons "requireSignIn" (.bool true) .nil)))))))))))) =
      .obj (oappend .nil extra) ∧
    okeys extra = quizKeys.filter (fun k2 => !(hasKO k2 (.nil : OList))) :=
  @C10_quiz_frame (initSt gen0) ({ initSt gen0 with ctr := 1 }) .nil
    (.obj (.cons "formId" (.str "quiz_form_100000")
      (.cons "formUrl" (.str "https://forms.example.com/placeholder")
      (.cons "title" (.str "Sample Quiz")
      (.cons "isQuiz" (.bool true)
      (.cons "collectEmailAddresses" (.bool true)
      (.cons "allowResponseEditing" (.bool false)
      (.cons "totalQuestions" (.int 0)
      (.cons "totalPoints" (.int 100)
      (.cons "autoGradableQuestions" (.int 0)
      (.cons "manualGradingRequired" (.bool true)
      (.cons "requireSignIn" (.bool true) .nil))))))))))))
    (by rfl)

set_option maxRecDepth 100000 in
theorem C1_counterexample :
    anonymize_json gen0 (.obj (.cons "name" (.str "Jordan Lee")
        (.cons "email" (.str "123456789@gapps.yrdsb.ca") .nil))) =
      .ok (.obj (.cons "name" (.str "Charlie Clark")
        (.cons "email" (.str "987654321@gapps.yrdsb.ca") .nil))) ∧
    anonymize_json gen0 (.obj (.cons "name" (.str "Charlie Clark")
        (.cons "email" (.str "987654321@gapps.yrdsb.ca") .nil))) =
      .ok (.obj (.cons "name" (.str "Charlie Clark")
        (.cons "email" (.str "123456789@gapps.yrdsb.ca") .nil))) ∧
    Value.str "123456789@gapps.yrdsb.ca" ≠ .str "987654321@gapps.yrdsb.ca" :=
  ⟨rfl, rfl, by decide⟩

set_option maxRecDepth 100000 in
theorem C2_counterexample :
    anonymize_json gen0 (.obj (.cons "quizData" (.obj .nil) .nil)) =
      .ok (.obj (.cons "quizData" (.obj (.cons "formId" (.str "quiz_form_100000")
        (.cons "formUrl" (.str "https://forms.example.com/placeholder")
        (.cons "title" (.str "Sample Quiz")
        (.cons "isQuiz" (.bool true)
        (.cons "collectEmailAddresses" (.bool true)
        (.cons "allowResponseEditing" (.bool false)
        (.cons "totalQuestions" (.int 0)
        (.cons "totalPoints" (.int 100)
        (.cons "autoGradableQuestions" (.int 0)
        (.cons "manualGradingRequired" (.bool true)
        (.cons "requireSignIn" (.bool true) .nil)))))))))))) .nil)) ∧
    "formId" ∈ okeys (.cons "formId" (.str "quiz_form_100000")
        (.cons "formUrl" (.str "https://forms.example.com/placeholder")
        (.cons "title" (.str "Sample Quiz")
        (.cons "isQuiz" (.bool true)
        (.cons "collectEmailAddresses" (.bool true)
        (.cons "allowResponseEditing" (.bool false)
        (.cons "totalQuestions" (.int 0)
        (.cons "totalPoints" (.int 100)
        (.cons "autoGradableQuestions" (.int 0)
        (.cons "manualGradingRequired" (.bool true)
        (.cons "requireSignIn" (.bool true) .nil))))))))))) ∧
    "formId" ∉ okeys (OList.nil : OList) ++ ["updatedAt", "attachments"] :=
  ⟨rfl, by decide, by decide⟩
